import Mathlib

/-!
The Go package `oncall` (go-oncall): pagination, polymorphic entity codec,
registry and filters.

A shallow embedding of the Go package `oncall` (utils.go, client.go,
escalationpolicy.go, schedules.go, alerts.go, users.go) and theorems about it.

Conventions of the embedding:

* Go `int` is a 64-bit two's-complement integer: an `Int` reduced by `wrapInt`.
* A Go slice that may be `nil` is an `Option (List α)`; `none` is the nil slice.
* A Go function returning `(x, error)` is modelled by a pair of options or by
  `Except`, the error value being kept abstract where the source does not
  build it.
* A run-time panic is an outcome of its own, never an error value.
* A loop that Go may run forever takes a fuel argument and yields `none` when
  the fuel is used up.
-/

namespace Oncall

deriving instance DecidableEq for Except

/-! ## Machine integers -/

/-- Two's-complement reduction of an integer to the range of Go's 64-bit `int`. -/
def wrapInt (x : Int) : Int := (x + 2 ^ 63) % 2 ^ 64 - 2 ^ 63

/-- The values of Go's 64-bit `int`. -/
def inIntRange (x : Int) : Prop := -(2 ^ 63) ≤ x ∧ x < 2 ^ 63

instance (x : Int) : Decidable (inIntRange x) := by
  unfold inIntRange; infer_instance

/-! ## client.go: the page envelope -/

/-- The struct `PaginatedResponse[T]` of client.go. `Results` is appended with
`append(ret, pageResp.Results...)`, for which a nil and an empty slice are the
same, so it is a plain list. -/
structure PaginatedResponse (T : Type) where
  Count : Int
  Next : String
  Previous : String
  Results : List T

/-! ## utils.go: paginate -/

/-- The result of a call of `paginate`: either the two values it returns (the
slice, `none` being nil, and the error, `none` being nil), or a run-time
panic. -/
inductive PaginateResult (T E : Type) where
  | returned (ret : Option (List T)) (err : Option E)
  | panicked
  deriving DecidableEq

/-- The built-in `make([]T, 0, cap)`: it panics (`makeslice: cap out of range`)
when `cap` is negative or exceeds `maxCap`, the largest capacity the runtime
can allocate for the element type; otherwise it yields the empty non-nil
slice. -/
def makeSlice {T : Type} (maxCap : Nat) (cap : Int) : Option (List T) :=
  if cap < 0 ∨ (maxCap : Int) < cap then none else some []

/-- The `for pageResp.Next != ""` loop of `paginate`. `calls` records the
arguments of every call of `fn` made so far, in order. -/
def paginateLoop {T F E : Type} (fn : Int → Option F → Except E (PaginatedResponse T))
    (filter : Option F) :
    Nat → Int → PaginatedResponse T → List T → List (Int × Option F) →
      Option (PaginateResult T E × List (Int × Option F))
  | 0, _, _, _, _ => none
  | fuel + 1, page, pageResp, ret, calls =>
    if pageResp.Next ≠ "" then
      let page1 := wrapInt (page + 1)
      match fn page1 filter with
      | .error err => some (.returned none (some err), calls ++ [(page1, filter)])
      | .ok pageResp1 =>
        paginateLoop fn filter fuel page1 pageResp1 (ret ++ pageResp1.Results)
          (calls ++ [(page1, filter)])
    else
      some (.returned (some ret) none, calls)

/-- The function `paginate` of utils.go, with the list of the calls of `fn` it
made. `fuel` bounds the number of loop iterations; `none` means that the fuel
ran out. -/
def paginate {T F E : Type} (maxCap fuel : Nat)
    (fn : Int → Option F → Except E (PaginatedResponse T)) (filter : Option F) :
    Option (PaginateResult T E × List (Int × Option F)) :=
  let page : Int := 0
  match fn page filter with
  | .error err => some (.returned none (some err), [(page, filter)])
  | .ok pageResp =>
    match makeSlice maxCap pageResp.Count with
    | none => some (.panicked, [(page, filter)])
    | some ret0 =>
      paginateLoop fn filter fuel page pageResp (ret0 ++ pageResp.Results) [(page, filter)]

/-! ## Strings -/

/-- The rune mapping of Go's `unicode.ToLower`, exact on ASCII and on the two
runes outside ASCII that it sends into ASCII (U+0130 to `i`, U+212A to `k`).
Every other rune outside ASCII is lowered by Go to a rune outside ASCII; the
model leaves it in place, which gives the same outcome in every comparison of
the result with an ASCII string. -/
def toLowerRune (c : Char) : Char :=
  if c = Char.ofNat 0x130 then 'i'
  else if c = Char.ofNat 0x212A then 'k'
  else c.toLower

/-- Go's `strings.ToLower`. -/
def ToLower (s : String) : String := String.mk (s.data.map toLowerRune)

/-- The rune folding of encoding/json's `foldName`: ASCII letters to upper
case, U+017F (long s) to `S`, U+212A (Kelvin sign) to `K`. Other runes outside
ASCII fold to runes outside ASCII and are left in place, which gives the same
outcome in every comparison with the folding of an ASCII field name. -/
def foldRune (c : Char) : Char :=
  if c = Char.ofNat 0x17F then 'S'
  else if c = Char.ofNat 0x212A then 'K'
  else c.toUpper

/-- The function `foldName` of encoding/json. -/
def foldName (s : String) : String := String.mk (s.data.map foldRune)

/-- Whether encoding/json decodes the object member named `key` into the
struct field tagged `name`: an exact match or a match after folding. The field
names of one struct of this package have pairwise different foldings, so a key
matches at most one field. -/
def fieldMatches (key name : String) : Bool :=
  decide (key = name) || decide (foldName key = foldName name)

/-- Strict bytewise order of two strings, given as rune lists (the order in
which encoding/json writes the keys of a map). -/
def ltChars : List Char → List Char → Bool
  | [], [] => false
  | [], _ :: _ => true
  | _ :: _, [] => false
  | a :: as, b :: bs =>
    if a.toNat < b.toNat then true
    else if b.toNat < a.toNat then false
    else ltChars as bs

/-- The decimal digit of a number below ten. -/
def digitChar (n : Nat) : Char := Char.ofNat (48 + n % 10)

/-- The decimal digits of `n`, most significant first; `fuel` bounds their
number. -/
def decimalAux : Nat → Nat → List Char → List Char
  | 0, _, acc => acc
  | fuel + 1, n, acc =>
    if n < 10 then digitChar n :: acc
    else decimalAux fuel (n / 10) (digitChar n :: acc)

/-- The decimal representation of a natural number. -/
def decimal (n : Nat) : List Char := decimalAux (n + 1) n []

/-- Go's `strconv.Itoa`. -/
def Itoa (x : Int) : String :=
  String.mk ((if x < 0 then ['-'] else []) ++ decimal x.natAbs)

/-! ## JSON values and errors -/

/-- A JSON number literal: an integer literal with its value, or any other
literal (one with a fraction or an exponent), kept as text. -/
inductive JNumber where
  | int (n : Int)
  | other (text : String)
  deriving DecidableEq

/-- A JSON document. The members of an object are kept in document order and
may repeat a key. -/
inductive JSON where
  | null
  | bool (b : Bool)
  | number (n : JNumber)
  | string (s : String)
  | array (xs : List JSON)
  | object (kvs : List (String × JSON))

/-- The error values the modelled code can return. -/
inductive GoError where
  /-- A `*json.UnmarshalTypeError`: JSON value kind and Go type. -/
  | unmarshalType (value : String) (goType : String)
  /-- A `*time.ParseError`: layout and value. -/
  | timeParse (layout : String) (value : String)
  /-- The error of `time.LoadLocation` for the given name. -/
  | loadLocation (name : String)
  deriving DecidableEq

/-- The name encoding/json gives the kind of a JSON value in an
`UnmarshalTypeError`. -/
def JSON.kindName : JSON → String
  | .null => "null"
  | .bool _ => "bool"
  | .number _ => "number"
  | .string _ => "string"
  | .array _ => "array"
  | .object _ => "object"

/-- A Go `map[string]interface{}` as encoding/json writes it: the entries in
strictly increasing key order. -/
abbrev GoMap := List (String × JSON)

/-- The map assignment `out[key] = value`. -/
def mapSet (key : String) (value : JSON) : GoMap → GoMap
  | [] => [(key, value)]
  | (k, v) :: rest =>
    if k = key then (key, value) :: rest
    else if ltChars key.data k.data then (key, value) :: (k, v) :: rest
    else (k, v) :: mapSet key value rest

/-- The value of the last member of an object with the given key, if any. -/
def lookupKey (key : String) (kvs : List (String × JSON)) : Option JSON :=
  (kvs.reverse.find? (fun kv => decide (kv.1 = key))).map Prod.snd

mutual
/-- What `json.Marshal` writes for the `interface{}` value that
`json.Unmarshal` built from a document: a number goes through float64
(`fmtFloat lit` is the literal written for the float64 parsed from `lit`), an
object becomes a map, written in key order with the last of equal keys. -/
def viaInterface (fmtFloat : JNumber → JNumber) : JSON → JSON
  | .null => .null
  | .bool b => .bool b
  | .number n => .number (fmtFloat n)
  | .string s => .string s
  | .array xs => .array (viaInterfaceList fmtFloat xs)
  | .object kvs => .object (viaInterfaceMembers fmtFloat kvs [])
/-- The elements of an array through `viaInterface`. -/
def viaInterfaceList (fmtFloat : JNumber → JNumber) : List JSON → List JSON
  | [] => []
  | x :: xs => viaInterface fmtFloat x :: viaInterfaceList fmtFloat xs
/-- The members of an object stored one by one into the map `out`. -/
def viaInterfaceMembers (fmtFloat : JNumber → JNumber) :
    List (String × JSON) → GoMap → GoMap
  | [], out => out
  | (k, v) :: kvs, out =>
    viaInterfaceMembers fmtFloat kvs (mapSet k (viaInterface fmtFloat v) out)
end

/-- The float64 round trip of encoding/json is exact on integer literals of
absolute value at most 2^53. -/
def ExactOnSmallInts (fmtFloat : JNumber → JNumber) : Prop :=
  ∀ n : Int, n.natAbs ≤ 2 ^ 53 → fmtFloat (.int n) = .int n

/-! ### Decoding into struct fields -/

/-- Decoding a JSON value into a Go `string` field holding `old`. -/
def decodeString (old : String) : JSON → Except GoError String
  | .string s => .ok s
  | .null => .ok old
  | j => .error (.unmarshalType j.kindName "string")

/-- Decoding a JSON value into a Go `int` or `int64` field holding `old`
(`strconv.ParseInt` of the literal, then the overflow check). A number that
is not an integer of the range is reported with its literal, which for an
integer literal out of range is its decimal text. -/
def decodeInt (goType : String) (old : Int) : JSON → Except GoError Int
  | .number (.int n) =>
    if inIntRange n then .ok n else .error (.unmarshalType ("number " ++ Itoa n) goType)
  | .number (.other text) => .error (.unmarshalType ("number " ++ text) goType)
  | .null => .ok old
  | j => .error (.unmarshalType j.kindName goType)

/-- Decoding a JSON value into a Go `bool` field holding `old`. -/
def decodeBool (old : Bool) : JSON → Except GoError Bool
  | .bool b => .ok b
  | .null => .ok old
  | j => .error (.unmarshalType j.kindName "bool")

/-- The elements of a JSON array decoded into the elements of a fresh
`[]string`, with the first error met: a string sets the element, null leaves
the zero value, anything else is a type error and leaves the zero value. -/
def decodeStringElems : List JSON → List String × Option GoError
  | [] => ([], none)
  | x :: xs =>
    let r := decodeStringElems xs
    match x with
    | .string s => (s :: r.1, r.2)
    | .null => ("" :: r.1, r.2)
    | j => ("" :: r.1, some (.unmarshalType j.kindName "string"))

/-- Decoding a JSON value into a `[]string` field holding `old`: the new value
of the field and the first error met. -/
def decodeStringSlice (old : Option (List String)) :
    JSON → Option (List String) × Option GoError
  | .array xs => (some (decodeStringElems xs).1, (decodeStringElems xs).2)
  | .null => (none, none)
  | j => (old, some (.unmarshalType j.kindName "[]string"))

/-- The first of two optional errors (`decodeState.saveError` keeps the first
error it is given). -/
def saveError (saved new : Option GoError) : Option GoError :=
  match saved with
  | some e => some e
  | none => new

/-- The members of a JSON object decoded one by one, in document order, into a
struct: `step` decodes one member into the struct and reports an error or
none. The result is the struct and the first error. -/
def decodeMembers {α : Type} (step : α → String → JSON → α × Option GoError)
    (kvs : List (String × JSON)) (init : α) : α × Option GoError :=
  kvs.foldl (fun acc kv =>
    let r := step acc.1 kv.1 kv.2
    (r.1, saveError acc.2 r.2)) (init, none)

/-- The call `json.Unmarshal(b, &x)` for a struct `x` without an unmarshaler
of its own: an object is decoded member by member, null leaves `x` as it is,
any other document is a type error. -/
def unmarshalStruct {α : Type} (goType : String)
    (step : α → String → JSON → α × Option GoError) (b : JSON) (x : α) :
    α × Option GoError :=
  match b with
  | .object kvs => decodeMembers step kvs x
  | .null => (x, none)
  | j => (x, some (.unmarshalType j.kindName goType))

/-- One struct field set from the result of its decoder. -/
def setField {α β : Type} (x : α) (r : Except GoError β) (set : β → α) :
    α × Option GoError :=
  match r with
  | .ok v => (set v, none)
  | .error e => (x, some e)

/-! ## Times (package time) -/

/-- A `*time.Location`, identified by its name. -/
structure Location where
  name : String
  deriving DecidableEq

/-- The location `time.UTC`. -/
def UTC : Location := ⟨"UTC"⟩

/-- The location `time.Local`. -/
def Local : Location := ⟨"Local"⟩

/-- A `time.Time`: the wall-clock reading in the value's own location, and
that location. -/
structure Time where
  year : Int
  month : Nat
  day : Nat
  hour : Nat
  minute : Nat
  second : Nat
  nsec : Nat
  loc : Location
  deriving DecidableEq

/-- The zero value `time.Time{}`: January 1, year 1, 00:00:00 UTC. -/
def Time.zero : Time := ⟨1, 1, 1, 0, 0, 0, 0, UTC⟩

/-- The function `appendInt` of package time: an optional minus sign, then
the decimal digits padded with zeros to at least `width` digits. -/
def appendInt (x : Int) (width : Nat) : List Char :=
  (if x < 0 then ['-'] else []) ++
    (List.replicate (width - (decimal x.natAbs).length) '0' ++ decimal x.natAbs)

/-- The constant `isoTimeLayout` of utils.go. -/
def isoTimeLayout : String := "2006-01-02T15:04:05Z"

/-- The constant `isoTimeOfDayLayout` of utils.go. -/
def isoTimeOfDayLayout : String := "15:04:05Z"

/-- `t.Format(isoTimeLayout)` as a rune list: four-digit year, two-digit
month, day, hour, minute and second, with the literals of the layout. -/
def formatIsoTime (t : Time) : List Char :=
  appendInt t.year 4 ++ '-' :: (appendInt t.month 2 ++ '-' :: (appendInt t.day 2 ++
    'T' :: (appendInt t.hour 2 ++ ':' :: (appendInt t.minute 2 ++
      ':' :: (appendInt t.second 2 ++ ['Z'])))))

/-- `t.Format(isoTimeOfDayLayout)` as a rune list. -/
def formatIsoTimeOfDay (t : Time) : List Char :=
  appendInt t.hour 2 ++ ':' :: (appendInt t.minute 2 ++ ':' :: (appendInt t.second 2 ++ ['Z']))

/-- The function `timeToString` of utils.go. -/
def timeToString (t : Time) : String := String.mk (formatIsoTime t)

/-- The function `timeOfDayToString` of utils.go. -/
def timeOfDayToString (t : Time) : String := String.mk (formatIsoTimeOfDay t)

/-- The function `isDigit` of package time, on one rune. -/
def isDigit (c : Char) : Bool := decide (48 ≤ c.toNat) && decide (c.toNat ≤ 57)

/-- The value of a decimal digit. -/
def digitVal (c : Char) : Nat := c.toNat - 48

/-- The function `getnum` of package time: a number of one or two digits, of
exactly two when `fixed`. -/
def getnum : List Char → Bool → Option (Nat × List Char)
  | [], _ => none
  | [a], fixed =>
    if !isDigit a then none
    else if fixed then none
    else some (digitVal a, [])
  | a :: b :: rest, fixed =>
    if !isDigit a then none
    else if !isDigit b then (if fixed then none else some (digitVal a, b :: rest))
    else some (digitVal a * 10 + digitVal b, rest)

/-- The layout element `2006` in `time.Parse`: exactly four digits. -/
def parseLongYear : List Char → Option (Nat × List Char)
  | a :: b :: c :: d :: rest =>
    if isDigit a && isDigit b && isDigit c && isDigit d then
      some (digitVal a * 1000 + digitVal b * 100 + digitVal c * 10 + digitVal d, rest)
    else none
  | _ => none

/-- The function `skip` of package time for a one-rune literal of the
layout. -/
def skipChar (c : Char) : List Char → Option (List Char)
  | [] => none
  | x :: rest => if x = c then some rest else none

/-- The value of a digit string. -/
def digitsValue (ds : List Char) : Nat := ds.foldl (fun acc d => acc * 10 + digitVal d) 0

/-- The fractional second that `time.Parse` accepts after the seconds when
the layout has none: a period or comma followed by digits, of which the first
nine count. The result is the nanoseconds and the rest of the value. -/
def parseFraction : List Char → Nat × List Char
  | p :: d :: rest =>
    if (p = '.' || p = ',') && isDigit d then
      let used := ((d :: rest).takeWhile isDigit).take 9
      (digitsValue used * 10 ^ (9 - used.length), (d :: rest).dropWhile isDigit)
    else (0, p :: d :: rest)
  | value => (0, value)

/-- The function `isLeap` of package time. -/
def isLeap (year : Int) : Bool :=
  decide (year % 4 = 0) && (decide (year % 100 ≠ 0) || decide (year % 400 = 0))

/-- The function `daysIn` of package time. -/
def daysIn (month : Nat) (year : Int) : Nat :=
  if month = 2 then (if isLeap year then 29 else 28)
  else if month = 4 ∨ month = 6 ∨ month = 9 ∨ month = 11 then 30
  else 31

/-- The call `time.Parse(isoTimeLayout, value)` on the runes of the value;
`none` stands for a `*time.ParseError`. The layout elements are `2006`, `01`,
`02`, `15`, `04`, `05` and the literals between them; a value without zone
information is in UTC. -/
def parseIsoTime (value : List Char) : Option Time :=
  match parseLongYear value with
  | none => none
  | some (year, v) =>
  match (skipChar '-' v).bind (fun v => getnum v true) with
  | none => none
  | some (month, v) =>
  if month = 0 ∨ 12 < month then none else
  match (skipChar '-' v).bind (fun v => getnum v true) with
  | none => none
  | some (day, v) =>
  match (skipChar 'T' v).bind (fun v => getnum v false) with
  | none => none
  | some (hour, v) =>
  if 24 ≤ hour then none else
  match (skipChar ':' v).bind (fun v => getnum v true) with
  | none => none
  | some (minute, v) =>
  if 60 ≤ minute then none else
  match (skipChar ':' v).bind (fun v => getnum v true) with
  | none => none
  | some (second, v) =>
  if 60 ≤ second then none else
  match skipChar 'Z' (parseFraction v).2 with
  | none => none
  | some rest =>
  if rest ≠ [] then none
  else if day < 1 ∨ daysIn month year < day then none
  else some ⟨year, month, day, hour, minute, second, (parseFraction v).1, UTC⟩

/-- The function `timeFromString` of utils.go. -/
def timeFromString (s : String) : Except GoError Time :=
  match parseIsoTime s.data with
  | some t => .ok t
  | none => .error (.timeParse isoTimeLayout s)

/-! ## escalationpolicy.go: the registry -/

/-- The type `EscalationPolicyType` of escalationpolicy.go, a Go `int`. -/
abbrev EscalationPolicyType := Int

/-- The constant `EscalationPolicyTypeUnknown`. -/
def EscalationPolicyTypeUnknown : EscalationPolicyType := 0
/-- The constant `EscalationPolicyTypeWait`. -/
def EscalationPolicyTypeWait : EscalationPolicyType := 1
/-- The constant `EscalationPolicyTypeNotifyPersons`. -/
def EscalationPolicyTypeNotifyPersons : EscalationPolicyType := 2
/-- The constant `EscalationPolicyTypeNotifyPersonNextEachTime`. -/
def EscalationPolicyTypeNotifyPersonNextEachTime : EscalationPolicyType := 3
/-- The constant `EscalationPolicyTypeNotifyOnCallFromSchedule`. -/
def EscalationPolicyTypeNotifyOnCallFromSchedule : EscalationPolicyType := 4
/-- The constant `EscalationPolicyTypeNotifyUserGroup`. -/
def EscalationPolicyTypeNotifyUserGroup : EscalationPolicyType := 5
/-- The constant `EscalationPolicyTypeTriggerAction`. -/
def EscalationPolicyTypeTriggerAction : EscalationPolicyType := 6
/-- The constant `EscalationPolicyTypeResolve`. -/
def EscalationPolicyTypeResolve : EscalationPolicyType := 7
/-- The constant `EscalationPolicyTypeNotifyWholeChannel`. -/
def EscalationPolicyTypeNotifyWholeChannel : EscalationPolicyType := 8
/-- The constant `EscalationPolicyTypeNotifyIfTimeFromTo`. -/
def EscalationPolicyTypeNotifyIfTimeFromTo : EscalationPolicyType := 9
/-- The constant `escalationPolicyTypeLen`. -/
def escalationPolicyTypeLen : EscalationPolicyType := 10

/-- The array `escalationPolicyTypeStringLookup`. -/
def escalationPolicyTypeStringLookup : List String :=
  [ "unknown",
    "wait",
    "notify_persons",
    "notify_person_next_each_time",
    "notify_on_call_from_schedule",
    "notify_user_group",
    "trigger_action",
    "resolve",
    "notify_whole_channel",
    "notify_if_time_from_to" ]

/-- The method `EscalationPolicyType.String`. The array access is the list
access at `e.toNat`; an index outside the array would show as the empty
string. -/
def EscalationPolicyType.String (e : EscalationPolicyType) : String :=
  if e < 0 ∨ e ≥ escalationPolicyTypeLen then "unknown"
  else (escalationPolicyTypeStringLookup.get? e.toNat).getD ""

/-- The values an `EscalationPolicyRule` interface holds in this package: a
pointer to one of the nine rule structs, given by the struct's fields. A nil
slice is `none`. -/
inductive EscalationPolicyRule where
  | Wait (Duration : Int)
  | NotifyPersons (Important : Bool) (UserIDs : Option (List String))
  | NotifyPersonNextEachTime (UserIDs : Option (List String))
  | NotifyOnCallFromSchedule (Important : Bool) (ScheduleID : String)
  | NotifyUserGroup (Important : Bool) (UserGroupID : String)
  | TriggerAction (ActionID : String)
  | Resolve
  | NotifyWholeChannel
  | NotifyIfTimeFromTo (From : Time) (To : Time)
  deriving DecidableEq

/-- The methods `EscalationPolicyType()` of the nine rule structs. -/
def EscalationPolicyRule.EscalationPolicyType : EscalationPolicyRule → EscalationPolicyType
  | .Wait _ => EscalationPolicyTypeWait
  | .NotifyPersons _ _ => EscalationPolicyTypeNotifyPersons
  | .NotifyPersonNextEachTime _ => EscalationPolicyTypeNotifyPersonNextEachTime
  | .NotifyOnCallFromSchedule _ _ => EscalationPolicyTypeNotifyOnCallFromSchedule
  | .NotifyUserGroup _ _ => EscalationPolicyTypeNotifyUserGroup
  | .TriggerAction _ => EscalationPolicyTypeTriggerAction
  | .Resolve => EscalationPolicyTypeResolve
  | .NotifyWholeChannel => EscalationPolicyTypeNotifyWholeChannel
  | .NotifyIfTimeFromTo _ _ => EscalationPolicyTypeNotifyIfTimeFromTo

/-- The function `escalationPolicyRuleFromString`: a pointer to the zero
value of the rule struct registered under the lowered string, or nil. -/
def escalationPolicyRuleFromString (s : String) : Option EscalationPolicyRule :=
  let l := ToLower s
  if l = "wait" then some (.Wait 0)
  else if l = "notify_persons" then some (.NotifyPersons false none)
  else if l = "notify_person_next_each_time" then some (.NotifyPersonNextEachTime none)
  else if l = "notify_on_call_from_schedule" then some (.NotifyOnCallFromSchedule false "")
  else if l = "notify_user_group" then some (.NotifyUserGroup false "")
  else if l = "trigger_action" then some (.TriggerAction "")
  else if l = "resolve" then some .Resolve
  else if l = "notify_whole_channel" then some .NotifyWholeChannel
  else if l = "notify_if_time_from_to" then some (.NotifyIfTimeFromTo Time.zero Time.zero)
  else none

/-! ## escalationpolicy.go: encoding -/

/-- What `json.Marshal` writes for a `[]string`: null for the nil slice, an
array of strings otherwise. -/
def stringSliceJSON : Option (List String) → JSON
  | none => .null
  | some xs => .array (xs.map JSON.string)

/-- The struct `escalationPolicyRuleNotifyIfTimeFromToRaw`. -/
structure escalationPolicyRuleNotifyIfTimeFromToRaw where
  From : String
  To : String
  deriving DecidableEq

/-- What `json.Marshal` writes for an
`escalationPolicyRuleNotifyIfTimeFromToRaw`: its members, in field order. -/
def escalationPolicyRuleNotifyIfTimeFromToRaw.members
    (raw : escalationPolicyRuleNotifyIfTimeFromToRaw) : List (String × JSON) :=
  [("notify_if_time_from", .string raw.From), ("notify_if_time_to", .string raw.To)]

/-- The method `EscalationPolicyRuleNotifyIfTimeFromTo.MarshalJSON`, given
the fields of its receiver: the members of the object it writes. -/
def EscalationPolicyRuleNotifyIfTimeFromTo.MarshalJSON (From To : Time) :
    List (String × JSON) :=
  escalationPolicyRuleNotifyIfTimeFromToRaw.members
    { From := timeOfDayToString From, To := timeOfDayToString To }

/-- The members, in order, of the JSON object that `json.Marshal(&e.Rule)`
writes: the tagged fields of the rule struct in declaration order, or the
output of the rule's own `MarshalJSON`. Every rule encodes as an object and no
field can fail to encode, so the two `return nil, err` branches that follow
`json.Marshal(&e.Rule)` and `json.Unmarshal(inter, &out)` are never taken. -/
def EscalationPolicyRule.members : EscalationPolicyRule → List (String × JSON)
  | .Wait d => [("duration", .number (.int d))]
  | .NotifyPersons imp ids =>
    [("important", .bool imp), ("persons_to_notify", stringSliceJSON ids)]
  | .NotifyPersonNextEachTime ids =>
    [("persons_to_notify_next_each_time", stringSliceJSON ids)]
  | .NotifyOnCallFromSchedule imp id =>
    [("important", .bool imp), ("notify_on_call_from_schedule", .string id)]
  | .NotifyUserGroup imp id => [("important", .bool imp), ("group_to_notify", .string id)]
  | .TriggerAction id => [("action_to_trigger", .string id)]
  | .Resolve => []
  | .NotifyWholeChannel => []
  | .NotifyIfTimeFromTo f t => EscalationPolicyRuleNotifyIfTimeFromTo.MarshalJSON f t

/-- The struct `EscalationPolicy`. A nil `Rule` is `none`. -/
structure EscalationPolicy where
  ID : String
  EscalationChainID : String
  Position : Int
  Rule : Option EscalationPolicyRule
  deriving DecidableEq

/-- The struct `escalationPolicyRawHeaders`. -/
structure escalationPolicyRawHeaders where
  ID : String
  EscalationChainID : String
  Position : Int
  /-- The field `Type` of the Go struct. -/
  Type_ : String
  deriving DecidableEq

/-- The method `EscalationPolicy.MarshalJSON`; a nil receiver is `none`. The
result is the document whose text the method returns (with a nil error). -/
def EscalationPolicy.MarshalJSON (fmtFloat : JNumber → JNumber) :
    Option EscalationPolicy → JSON
  | none => .null
  | some e =>
    let out : GoMap := []
    let out :=
      match e.Rule with
      | some rule =>
        mapSet "type" (.string (EscalationPolicyType.String rule.EscalationPolicyType))
          (viaInterfaceMembers fmtFloat rule.members out)
      | none => out
    let out := if e.ID ≠ "" then mapSet "id" (.string e.ID) out else out
    let out := mapSet "escalation_chain_id" (.string e.EscalationChainID) out
    let out := mapSet "position" (.number (.int e.Position)) out
    .object out

/-! ## escalationpolicy.go: decoding -/

/-- One object member decoded into an `escalationPolicyRawHeaders`. -/
def escalationPolicyRawHeaders.step (h : escalationPolicyRawHeaders) (key : String)
    (v : JSON) : escalationPolicyRawHeaders × Option GoError :=
  if fieldMatches key "id" then
    setField h (decodeString h.ID v) (fun x => { h with ID := x })
  else if fieldMatches key "escalation_chain_id" then
    setField h (decodeString h.EscalationChainID v) (fun x => { h with EscalationChainID := x })
  else if fieldMatches key "position" then
    setField h (decodeInt "int" h.Position v) (fun x => { h with Position := x })
  else if fieldMatches key "type" then
    setField h (decodeString h.Type_ v) (fun x => { h with Type_ := x })
  else (h, none)

/-- One object member decoded into an
`escalationPolicyRuleNotifyIfTimeFromToRaw`. -/
def escalationPolicyRuleNotifyIfTimeFromToRaw.step
    (raw : escalationPolicyRuleNotifyIfTimeFromToRaw) (key : String) (v : JSON) :
    escalationPolicyRuleNotifyIfTimeFromToRaw × Option GoError :=
  if fieldMatches key "notify_if_time_from" then
    setField raw (decodeString raw.From v) (fun x => { raw with From := x })
  else if fieldMatches key "notify_if_time_to" then
    setField raw (decodeString raw.To v) (fun x => { raw with To := x })
  else (raw, none)

/-- The method `EscalationPolicyRuleNotifyIfTimeFromTo.UnmarshalJSON`: the
fields `From` and `To` of the receiver before the call, the fields after it
and the error returned. A failed `timeFromString` assigns the zero time. -/
def EscalationPolicyRuleNotifyIfTimeFromTo.UnmarshalJSON (b : JSON) (From To : Time) :
    (Time × Time) × Option GoError :=
  match unmarshalStruct "oncall.escalationPolicyRuleNotifyIfTimeFromToRaw"
      escalationPolicyRuleNotifyIfTimeFromToRaw.step b { From := "", To := "" } with
  | (_, some err) => ((From, To), some err)
  | (raw, none) =>
    match timeFromString raw.From with
    | .error err => ((Time.zero, To), some err)
    | .ok from1 =>
      match timeFromString raw.To with
      | .error err => ((from1, Time.zero), some err)
      | .ok to1 => ((from1, to1), none)

/-- One object member decoded into a rule struct without an unmarshaler of
its own. -/
def EscalationPolicyRule.step (r : EscalationPolicyRule) (key : String) (v : JSON) :
    EscalationPolicyRule × Option GoError :=
  match r with
  | .Wait d =>
    if fieldMatches key "duration" then
      setField r (decodeInt "time.Duration" d v) (fun x => .Wait x)
    else (r, none)
  | .NotifyPersons imp ids =>
    if fieldMatches key "important" then
      setField r (decodeBool imp v) (fun x => .NotifyPersons x ids)
    else if fieldMatches key "persons_to_notify" then
      (.NotifyPersons imp (decodeStringSlice ids v).1, (decodeStringSlice ids v).2)
    else (r, none)
  | .NotifyPersonNextEachTime ids =>
    if fieldMatches key "persons_to_notify_next_each_time" then
      (.NotifyPersonNextEachTime (decodeStringSlice ids v).1, (decodeStringSlice ids v).2)
    else (r, none)
  | .NotifyOnCallFromSchedule imp id =>
    if fieldMatches key "important" then
      setField r (decodeBool imp v) (fun x => .NotifyOnCallFromSchedule x id)
    else if fieldMatches key "notify_on_call_from_schedule" then
      setField r (decodeString id v) (fun x => .NotifyOnCallFromSchedule imp x)
    else (r, none)
  | .NotifyUserGroup imp id =>
    if fieldMatches key "important" then
      setField r (decodeBool imp v) (fun x => .NotifyUserGroup x id)
    else if fieldMatches key "group_to_notify" then
      setField r (decodeString id v) (fun x => .NotifyUserGroup imp x)
    else (r, none)
  | .TriggerAction id =>
    if fieldMatches key "action_to_trigger" then
      setField r (decodeString id v) (fun x => .TriggerAction x)
    else (r, none)
  | .Resolve => (r, none)
  | .NotifyWholeChannel => (r, none)
  | .NotifyIfTimeFromTo _ _ => (r, none)

/-- The call `json.Unmarshal(b, rule)` for a non-nil rule: the rule pointed to
after the call and the error returned. The time rule has an `UnmarshalJSON` of
its own, which encoding/json calls with the whole document. -/
def unmarshalRule (b : JSON) (rule : EscalationPolicyRule) :
    EscalationPolicyRule × Option GoError :=
  match rule with
  | .NotifyIfTimeFromTo f t =>
    let r := EscalationPolicyRuleNotifyIfTimeFromTo.UnmarshalJSON b f t
    (.NotifyIfTimeFromTo r.1.1 r.1.2, r.2)
  | r => unmarshalStruct "oncall.EscalationPolicyRule" EscalationPolicyRule.step b r

/-- The method `EscalationPolicy.UnmarshalJSON`: the receiver before the call
and the document; the receiver after the call and the error returned (`none`
is nil). -/
def EscalationPolicy.UnmarshalJSON (e : EscalationPolicy) (b : JSON) :
    EscalationPolicy × Option GoError :=
  match unmarshalStruct "oncall.escalationPolicyRawHeaders" escalationPolicyRawHeaders.step b
      { ID := "", EscalationChainID := "", Position := 0, Type_ := "" } with
  | (_, some err) => (e, some err)
  | (rawHeaders, none) =>
    let e1 : EscalationPolicy :=
      { ID := rawHeaders.ID, EscalationChainID := rawHeaders.EscalationChainID,
        Position := rawHeaders.Position, Rule := none }
    match escalationPolicyRuleFromString rawHeaders.Type_ with
    | some rule =>
      match unmarshalRule b rule with
      | (_, some err) => (e1, some err)
      | (rule1, none) => ({ e1 with Rule := some rule1 }, none)
    | none => ({ e1 with Rule := none }, none)

/-! ## schedules.go -/

/-- The struct `ScheduleSlackMetadata`. -/
structure ScheduleSlackMetadata where
  ChannelID : String
  UserGroupID : String
  deriving DecidableEq

/-- The type `ScheduleCalendarType`, a Go `int`. -/
abbrev ScheduleCalendarType := Int

/-- The constant `ScheduleCalendarTypeUnknown`. -/
def ScheduleCalendarTypeUnknown : ScheduleCalendarType := 0
/-- The constant `ScheduleCalendarTypeWeb`. -/
def ScheduleCalendarTypeWeb : ScheduleCalendarType := 1
/-- The constant `ScheduleCalendarTypeICal`. -/
def ScheduleCalendarTypeICal : ScheduleCalendarType := 2
/-- The constant `scheduleCalendarTypeLen`. -/
def scheduleCalendarTypeLen : ScheduleCalendarType := 3

/-- The array `scheduleCalendarTypeStringLookup`. -/
def scheduleCalendarTypeStringLookup : List String := ["unknown", "calendar", "ical"]

/-- The method `ScheduleCalendarType.String`. The array access is the list
access at `s.toNat`; an index outside the array would show as the empty
string. -/
def ScheduleCalendarType.String (s : ScheduleCalendarType) : String :=
  if s < 0 ∨ s ≥ scheduleCalendarTypeLen then "unknown"
  else (scheduleCalendarTypeStringLookup.get? s.toNat).getD ""

/-- The values a `ScheduleCalendar` interface holds in this package: one of
the two calendar structs, held by value. -/
inductive ScheduleCalendar where
  | Web (Shifts : Option (List String))
  | ICal (PrimaryURL : String)
  deriving DecidableEq

/-- The methods `ScheduleCalendarType()` of the two calendar structs. -/
def ScheduleCalendar.ScheduleCalendarType : ScheduleCalendar → ScheduleCalendarType
  | .Web _ => ScheduleCalendarTypeWeb
  | .ICal _ => ScheduleCalendarTypeICal

/-- The map `scheduleCalendarTypeLookup`: the value stored under a key, if
the key is present. -/
def scheduleCalendarTypeLookup (key : String) : Option ScheduleCalendar :=
  if key = "calendar" then some (.Web none)
  else if key = "ical" then some (.ICal "")
  else none

/-- The struct `Schedule`. A nil `TimeZone` and a nil `Calendar` are `none`. -/
structure Schedule where
  ID : String
  Name : String
  TeamID : String
  TimeZone : Option Location
  ICalOverridesURL : String
  Slack : ScheduleSlackMetadata
  Calendar : Option ScheduleCalendar
  deriving DecidableEq

/-- The struct `scheduleRawHeaders`. -/
structure scheduleRawHeaders where
  ID : String
  Name : String
  TeamID : String
  TimeZone : String
  ICalURLOverrides : String
  Slack : ScheduleSlackMetadata
  /-- The field `Type` of the Go struct. -/
  Type_ : String
  deriving DecidableEq

/-- What `json.Marshal` writes for a `ScheduleSlackMetadata`. -/
def ScheduleSlackMetadata.toJSON (m : ScheduleSlackMetadata) : JSON :=
  .object [("channel_id", .string m.ChannelID), ("user_group_id", .string m.UserGroupID)]

/-- The members, in order, of the JSON object that `json.Marshal(&s.Calendar)`
writes. Both calendars encode as an object and no field can fail to encode,
so the two `return nil, err` branches that follow are never taken. -/
def ScheduleCalendar.members : ScheduleCalendar → List (String × JSON)
  | .Web shifts => [("shifts", stringSliceJSON shifts)]
  | .ICal url => [("ical_url_primary", .string url)]

/-- The method `Schedule.MarshalJSON`; a nil receiver is `none`. -/
def Schedule.MarshalJSON (fmtFloat : JNumber → JNumber) : Option Schedule → JSON
  | none => .null
  | some s =>
    let out : GoMap := []
    let out :=
      match s.Calendar with
      | some cal =>
        mapSet "type" (.string (ScheduleCalendarType.String cal.ScheduleCalendarType))
          (viaInterfaceMembers fmtFloat cal.members out)
      | none => out
    let out := if s.ID ≠ "" then mapSet "id" (.string s.ID) out else out
    let out := mapSet "name" (.string s.Name) out
    let out := if s.TeamID ≠ "" then mapSet "team_id" (.string s.TeamID) out else out
    let out :=
      if s.ICalOverridesURL ≠ "" then mapSet "ical_url_overrides" (.string s.ICalOverridesURL) out
      else out
    let out :=
      match s.TimeZone with
      | some tz => mapSet "time_zone" (.string tz.name) out
      | none => out
    let out := mapSet "slack" s.Slack.toJSON out
    .object out

/-- One object member decoded into a `ScheduleSlackMetadata`. -/
def ScheduleSlackMetadata.step (m : ScheduleSlackMetadata) (key : String) (v : JSON) :
    ScheduleSlackMetadata × Option GoError :=
  if fieldMatches key "channel_id" then
    setField m (decodeString m.ChannelID v) (fun x => { m with ChannelID := x })
  else if fieldMatches key "user_group_id" then
    setField m (decodeString m.UserGroupID v) (fun x => { m with UserGroupID := x })
  else (m, none)

/-- One object member decoded into a `scheduleRawHeaders`. -/
def scheduleRawHeaders.step (h : scheduleRawHeaders) (key : String) (v : JSON) :
    scheduleRawHeaders × Option GoError :=
  if fieldMatches key "id" then
    setField h (decodeString h.ID v) (fun x => { h with ID := x })
  else if fieldMatches key "name" then
    setField h (decodeString h.Name v) (fun x => { h with Name := x })
  else if fieldMatches key "team_id" then
    setField h (decodeString h.TeamID v) (fun x => { h with TeamID := x })
  else if fieldMatches key "time_zone" then
    setField h (decodeString h.TimeZone v) (fun x => { h with TimeZone := x })
  else if fieldMatches key "ical_url_overrides" then
    setField h (decodeString h.ICalURLOverrides v) (fun x => { h with ICalURLOverrides := x })
  else if fieldMatches key "slack" then
    ({ h with Slack :=
        (unmarshalStruct "oncall.ScheduleSlackMetadata" ScheduleSlackMetadata.step v h.Slack).1 },
      (unmarshalStruct "oncall.ScheduleSlackMetadata" ScheduleSlackMetadata.step v h.Slack).2)
  else if fieldMatches key "type" then
    setField h (decodeString h.Type_ v) (fun x => { h with Type_ := x })
  else (h, none)

/-- Whether a rune list contains two periods in a row (`containsDotDot` of
package time). -/
def containsDotDot : List Char → Bool
  | a :: b :: rest => (a = '.' && b = '.') || containsDotDot (b :: rest)
  | _ => false

/-- The function `time.LoadLocation`. `tzdb` is the time zone database of the
machine: the location it holds under a name, if any. -/
def LoadLocation (tzdb : String → Option Location) (name : String) :
    Except GoError Location :=
  if name = "" ∨ name = "UTC" then .ok UTC
  else if name = "Local" then .ok Local
  else if containsDotDot name.data || name.data.head? = some '/'
      || name.data.head? = some (Char.ofNat 92) then
    .error (.loadLocation name)
  else
    match tzdb name with
    | some l => .ok l
    | none => .error (.loadLocation name)

/-- The call `json.Unmarshal(b, &cal)` of `Schedule.UnmarshalJSON`, where
`cal` is a non-nil `ScheduleCalendar` interface holding a struct by value:
the interface after the call and the error returned. encoding/json follows an
interface only to a pointer; here it stays at the interface, whose type has a
method, and into such a value it stores nothing but null: null sets the
interface to nil, every other document is an `UnmarshalTypeError` and leaves
the interface as it is. -/
def unmarshalIntoCalendar (b : JSON) (cal : ScheduleCalendar) :
    Option ScheduleCalendar × Option GoError :=
  match b with
  | .null => (none, none)
  | j => (some cal, some (.unmarshalType j.kindName "oncall.ScheduleCalendar"))

/-- The method `Schedule.UnmarshalJSON`: the receiver before the call and the
document; the receiver after the call and the error returned (`none` is
nil). -/
def Schedule.UnmarshalJSON (tzdb : String → Option Location) (s : Schedule) (b : JSON) :
    Schedule × Option GoError :=
  match unmarshalStruct "oncall.scheduleRawHeaders" scheduleRawHeaders.step b
      { ID := "", Name := "", TeamID := "", TimeZone := "", ICalURLOverrides := "",
        Slack := ⟨"", ""⟩, Type_ := "" } with
  | (_, some err) => (s, some err)
  | (rawHeaders, none) =>
    let s1 : Schedule :=
      { ID := rawHeaders.ID, Name := rawHeaders.Name, TeamID := rawHeaders.TeamID,
        TimeZone := none, ICalOverridesURL := rawHeaders.ICalURLOverrides,
        Slack := rawHeaders.Slack, Calendar := none }
    match LoadLocation tzdb rawHeaders.TimeZone with
    | .error err => (s1, some err)
    | .ok tz =>
      let s2 : Schedule := { s1 with TimeZone := some tz }
      match scheduleCalendarTypeLookup (ToLower rawHeaders.Type_) with
      | some cal0 =>
        match unmarshalIntoCalendar b cal0 with
        | (_, some err) => (s2, some err)
        | (cal, none) => ({ s2 with Calendar := cal }, none)
      | none => ({ s2 with Calendar := none }, none)

/-! ## Query parameters and the List-by-page operations -/

/-- A `url.Values`, kept in the key order in which `Encode` writes it. -/
abbrev Values := List (String × List String)

/-- The method `url.Values.Set`: the key gets the single given value. -/
def Values.Set (key value : String) : Values → Values
  | [] => [(key, [value])]
  | (k, vs) :: rest =>
    if k = key then (key, [value]) :: rest
    else if ltChars key.data k.data then (key, [value]) :: (k, vs) :: rest
    else (k, vs) :: Values.Set key value rest

/-- The query parameters that `getPage` hands to `doRequest`: `vals` after
`if page > 0 { vals.Set("page", strconv.Itoa(page)) }`. -/
def getPageQuery (page : Int) (vals : Values) : Values :=
  if page > 0 then Values.Set "page" (Itoa page) vals else vals

/-- The function `getPage` of utils.go. The client is given by its method
`doRequest` for a GET request: method, path and query parameters to the
decoded response or an error. -/
def getPage {T E : Type} (doRequest : String → String → Values → Except E (PaginatedResponse T))
    (page : Int) (path : String) (vals : Values) : Except E (PaginatedResponse T) :=
  doRequest "GET" path (getPageQuery page vals)

/-- The struct `ListAlertFilter`. -/
structure ListAlertFilter where
  AlertGroupID : String
  Search : String

/-- The struct `EscalationPolicyFilter`. -/
structure EscalationPolicyFilter where
  EscalationChainID : String

/-- The struct `ScheduleFilter`. -/
structure ScheduleFilter where
  Name : String

/-- The struct `UserFilter`. -/
structure UserFilter where
  Username : String

/-- The `values` that `ListAlertsByPage` builds from its filter (nil is
`none`). -/
def ListAlertFilter.values : Option ListAlertFilter → Values
  | none => []
  | some filter =>
    let values : Values := []
    let values :=
      if filter.AlertGroupID ≠ "" then Values.Set "alert_group_id" filter.AlertGroupID values
      else values
    if filter.Search ≠ "" then Values.Set "search" filter.Search values else values

/-- The `values` that `ListEscalationPoliciesByPage` builds from its filter. -/
def EscalationPolicyFilter.values : Option EscalationPolicyFilter → Values
  | none => []
  | some filter =>
    if filter.EscalationChainID ≠ "" then
      Values.Set "escalation_chain_id" filter.EscalationChainID []
    else []

/-- The `values` that `ListSchedulesByPage` builds from its filter. -/
def ScheduleFilter.values : Option ScheduleFilter → Values
  | none => []
  | some filter => if filter.Name ≠ "" then Values.Set "name" filter.Name [] else []

/-- The `values` that `ListUsersByPage` builds from its filter. -/
def UserFilter.values : Option UserFilter → Values
  | none => []
  | some filter => if filter.Username ≠ "" then Values.Set "username" filter.Username [] else []

/-- The method `ListAlertsByPage`. -/
def ListAlertsByPage {T E : Type}
    (doRequest : String → String → Values → Except E (PaginatedResponse T))
    (page : Int) (filter : Option ListAlertFilter) : Except E (PaginatedResponse T) :=
  getPage doRequest page "alerts" (ListAlertFilter.values filter)

/-- The method `ListEscalationPoliciesByPage`. -/
def ListEscalationPoliciesByPage {T E : Type}
    (doRequest : String → String → Values → Except E (PaginatedResponse T))
    (page : Int) (filter : Option EscalationPolicyFilter) : Except E (PaginatedResponse T) :=
  getPage doRequest page "escalation_policies" (EscalationPolicyFilter.values filter)

/-- The method `ListSchedulesByPage`. -/
def ListSchedulesByPage {T E : Type}
    (doRequest : String → String → Values → Except E (PaginatedResponse T))
    (page : Int) (filter : Option ScheduleFilter) : Except E (PaginatedResponse T) :=
  getPage doRequest page "schedules" (ScheduleFilter.values filter)

/-- The method `ListUsersByPage`. -/
def ListUsersByPage {T E : Type}
    (doRequest : String → String → Values → Except E (PaginatedResponse T))
    (page : Int) (filter : Option UserFilter) : Except E (PaginatedResponse T) :=
  getPage doRequest page "users" (UserFilter.values filter)

/-! ## The header values of a JSON object (specification side) -/

/-- Specification side: the string value of the header field `name` of an
object, read off the document without decoding it: the string of the last
member that encoding/json takes for the field and whose value is a string,
`dflt` if there is none. -/
def objectHeaderString (name : String) (kvs : List (String × JSON)) (dflt : String) : String :=
  (kvs.reverse.findSome? fun kv =>
    if fieldMatches kv.1 name then
      (match kv.2 with
       | .string s => some s
       | _ => none)
    else none).getD dflt

/-- Specification side: the integer value of the header field `name` of an
object: the value of the last member that encoding/json takes for the field
and whose value is an integer literal, `dflt` if there is none. -/
def objectHeaderInt (name : String) (kvs : List (String × JSON)) (dflt : Int) : Int :=
  (kvs.reverse.findSome? fun kv =>
    if fieldMatches kv.1 name then
      (match kv.2 with
       | .number (.int n) => some n
       | _ => none)
    else none).getD dflt

/-- A JSON value that a Go `string` field accepts: a string or null. -/
def JSON.isStringOrNull : JSON → Bool
  | .string _ => true
  | .null => true
  | _ => false

/-- A JSON value that a Go `int` field accepts: an integer literal in the
range of `int`, or null. -/
def JSON.isIntOrNull : JSON → Bool
  | .number (.int n) => decide (inIntRange n)
  | .null => true
  | _ => false

/-- Specification side: a member of an escalation-policy object is well typed
when, if encoding/json takes it for one of the header fields `id`,
`escalation_chain_id`, `type` (strings) or `position` (an int), its value is
one the field accepts. Members that are no header field are not restricted. -/
def escalationPolicyHeaderWellTyped (kv : String × JSON) : Bool :=
  if fieldMatches kv.1 "id" || fieldMatches kv.1 "escalation_chain_id"
      || fieldMatches kv.1 "type" then kv.2.isStringOrNull
  else if fieldMatches kv.1 "position" then kv.2.isIntOrNull
  else true

/-! ## utils.go: buildPath; client.go: the path of a request -/

/-- The map lookup `vals[key]` on a `url.Values`: the values of the first entry
with the key, if any. -/
def Values.lookup (key : String) : Values → Option (List String)
  | [] => none
  | (k, vs) :: rest => if k = key then some vs else Values.lookup key rest

/-- The UTF-8 encoding of a rune, as byte values (a Go string is its
bytes). -/
def utf8Bytes (c : Char) : List Nat :=
  let n := c.toNat
  if n < 0x80 then [n]
  else if n < 0x800 then [0xC0 + n / 64, 0x80 + n % 64]
  else if n < 0x10000 then [0xE0 + n / 4096, 0x80 + n / 64 % 64, 0x80 + n % 64]
  else [0xF0 + n / 262144, 0x80 + n / 4096 % 64, 0x80 + n / 64 % 64, 0x80 + n % 64]

/-- The function `shouldEscape(c, encodePathSegment)` of net/url: letters,
digits and `-_.~` are kept, of the reserved characters `$&+,/:;=?@` the four
`/ ; , ?` are escaped, and every other byte is escaped. -/
def shouldEscapePathSegment (b : Nat) : Bool :=
  if (97 ≤ b ∧ b ≤ 122) ∨ (65 ≤ b ∧ b ≤ 90) ∨ (48 ≤ b ∧ b ≤ 57) then false
  else if b = 45 ∨ b = 95 ∨ b = 46 ∨ b = 126 then false
  else if b = 36 ∨ b = 38 ∨ b = 43 ∨ b = 44 ∨ b = 47 ∨ b = 58 ∨ b = 59 ∨ b = 61
      ∨ b = 63 ∨ b = 64 then
    decide (b = 47 ∨ b = 59 ∨ b = 44 ∨ b = 63)
  else true

/-- The upper-case hexadecimal digit of a number below sixteen
(`upperhex[n]`). -/
def upperHex (n : Nat) : Char :=
  if n % 16 < 10 then Char.ofNat (48 + n % 16) else Char.ofNat (55 + n % 16)

/-- One byte in the output of `url.PathEscape`: itself, or `%` and its two
hexadecimal digits. -/
def escapeByte (b : Nat) : List Char :=
  if shouldEscapePathSegment b then ['%', upperHex (b / 16), upperHex b]
  else [Char.ofNat b]

/-- The function `url.PathEscape`, on rune lists. -/
def pathEscapeChars (s : List Char) : List Char :=
  s.flatMap fun c => (utf8Bytes c).flatMap escapeByte

/-- The function `url.PathEscape`. -/
def PathEscape (s : String) : String := String.mk (pathEscapeChars s.data)

/-- The function `buildPath` of utils.go: the escaped segments joined by
`/`. -/
def buildPath (segments : List String) : String :=
  String.mk (List.intercalate ['/'] (segments.map fun segment => (PathEscape segment).data))

/-- The call `strings.Trim(s, "/")`: `s` without its leading and trailing
slashes. -/
def trimSlashes (s : String) : String :=
  String.mk ((s.data.dropWhile (fun c => c = '/')).reverse.dropWhile (fun c => c = '/')).reverse

/-- The path of the URL that `Client.Curl` requests: the value it assigns to
`u.Path`, from the path `basePath` of the client's URL and the argument
`path`. -/
def CurlPath (basePath path : String) : String :=
  let trimmed := trimSlashes basePath
  let joined := if trimmed ≠ "" then basePath ++ "/" else trimmed
  "/" ++ joined ++ "api/v1/" ++ trimSlashes path

/-! ## schedules.go: CreateSchedule -/

/-- The struct `CreateScheduleOptions`. -/
structure CreateScheduleOptions where
  TeamID : String
  Slack : ScheduleSlackMetadata
  ICalOverridesURL : String
  TimeZone : Option Location
  deriving DecidableEq

/-- The local `nonNilOpts` of `CreateSchedule` when the request is made: a
copy of `*opts` (the zero value for a nil `opts`) whose nil time zone is
replaced by UTC. -/
def CreateSchedule.nonNilOpts (opts : Option CreateScheduleOptions) : CreateScheduleOptions :=
  let nonNilOpts : CreateScheduleOptions :=
    match opts with
    | some o => o
    | none => { TeamID := "", Slack := ⟨"", ""⟩, ICalOverridesURL := "", TimeZone := none }
  if nonNilOpts.TimeZone = none then { nonNilOpts with TimeZone := some UTC } else nonNilOpts

/-- The schedule `schedOut` that `CreateSchedule` hands to `doRequest` as the
request body. -/
def CreateSchedule.schedOut (name : String) (cal : Option ScheduleCalendar)
    (opts : Option CreateScheduleOptions) : Schedule :=
  { ID := "", Name := name, Calendar := cal,
    TeamID := (CreateSchedule.nonNilOpts opts).TeamID,
    Slack := (CreateSchedule.nonNilOpts opts).Slack,
    ICalOverridesURL := (CreateSchedule.nonNilOpts opts).ICalOverridesURL,
    TimeZone := (CreateSchedule.nonNilOpts opts).TimeZone }

/-- The method `CreateSchedule`. The client is given by `doPost`, its
`doRequest` for a request with a body: method, path and the document encoded
from the input, to the decoded schedule and the error. The third component of
the result is the value of `*opts` after the call: the method copies `*opts`
into `nonNilOpts` and writes to the copy only. -/
def CreateSchedule {E : Type} (fmtFloat : JNumber → JNumber)
    (doPost : String → String → JSON → Schedule × Option E)
    (name : String) (cal : Option ScheduleCalendar) (opts : Option CreateScheduleOptions) :
    Schedule × Option E × Option CreateScheduleOptions :=
  let r := doPost "POST" "schedules"
    (Schedule.MarshalJSON fmtFloat (some (CreateSchedule.schedOut name cal opts)))
  (r.1, r.2, opts)

/-! ## The float64 a JSON number passes through (strconv) -/

/-- The number of binary digits of a natural number; `fuel` bounds it. -/
def bitLength : Nat → Nat → Nat
  | 0, _ => 0
  | fuel + 1, a => if a = 0 then 0 else 1 + bitLength fuel (a / 2)

/-- The binary exponent of the float64 nearest to `a ≥ 2^53` and its 53-bit
significand, after rounding to nearest with ties to even: the float64 is
`significand * 2 ^ exponent`. -/
def float64Parts (a : Nat) : Nat × Nat :=
  let sh := bitLength a a - 53
  let q := a / 2 ^ sh
  let r := a % 2 ^ sh
  let half := 2 ^ (sh - 1)
  let q1 := if half < r ∨ (r = half ∧ q % 2 = 1) then q + 1 else q
  if q1 = 2 ^ 53 then (sh + 1, 2 ^ 52) else (sh, q1)

/-- Whether the decimal `c` parses to the float64 with the given exponent and
significand: twice `c` lies between twice the midpoints to the neighbouring
float64s, the midpoints themselves counting when the significand is even. The
neighbour below a power of two is half as far as the neighbour above. -/
def roundsToFloat64 (sh mant c : Nat) : Bool :=
  let twoF := 2 * (mant * 2 ^ sh)
  let twoHi := twoF + 2 ^ sh
  let twoLo := if mant = 2 ^ 52 then twoF - 2 ^ (sh - 1) else twoF - 2 ^ sh
  if mant % 2 = 0 then decide (twoLo ≤ 2 * c) && decide (2 * c ≤ twoHi)
  else decide (twoLo < 2 * c) && decide (2 * c < twoHi)

/-- The multiple of `10 ^ p` nearest to the float64 among those that parse to
it, if there is one. -/
def shortestAt (sh mant p : Nat) : Option Nat :=
  let f := mant * 2 ^ sh
  let down := f / 10 ^ p * 10 ^ p
  let up := down + 10 ^ p
  if roundsToFloat64 sh mant down && roundsToFloat64 sh mant up then
    some (if f - down ≤ up - f then down else up)
  else if roundsToFloat64 sh mant down then some down
  else if roundsToFloat64 sh mant up then some up
  else none

/-- What `strconv.AppendFloat(b, f, 'f', -1, 64)` writes for the float64
nearest to a natural number: below 2^53 the number itself; from 2^53 on the
decimal with the fewest significant digits that parses to the same float64
(the nearest one, if several), its digits followed by zeros. -/
def float64DecimalText (a : Nat) : Nat :=
  if a < 2 ^ 53 then a
  else
    let parts := float64Parts a
    ((List.range (bitLength a a)).reverse.findSome? (shortestAt parts.1 parts.2)).getD
      (parts.2 * 2 ^ parts.1)

/-- The literal that encoding/json writes for the float64 it read from a
literal, for integer literals of absolute value below 10^21 (which it writes
without an exponent); the encoders of this package write numbers from Go
`int` and `int64` values only. Literals outside that range and literals with
a fraction or an exponent do not occur in what they write and are left as
they are. -/
def float64Text : JNumber → JNumber
  | .int n =>
    if n.natAbs < 10 ^ 21 then
      .int (if n < 0 then -(float64DecimalText n.natAbs : Int) else float64DecimalText n.natAbs)
    else .int n
  | .other text => .other text

/-! ## The strings of the timestamp pattern (specification side) -/

/-- Specification side: the times the pattern YYYY-MM-DDTHH:MM:SSZ stands
for: a calendar date in a year of four digits and a time of day, in UTC. -/
def Time.IsCalendarUTC (t : Time) : Prop :=
  0 ≤ t.year ∧ t.year ≤ 9999 ∧ 1 ≤ t.month ∧ t.month ≤ 12 ∧
    1 ≤ t.day ∧ t.day ≤ daysIn t.month t.year ∧
    t.hour < 24 ∧ t.minute < 60 ∧ t.second < 60 ∧ t.nsec < 10 ^ 9 ∧ t.loc = UTC

instance (t : Time) : Decidable t.IsCalendarUTC := by
  unfold Time.IsCalendarUTC
  infer_instance

/-- Specification side: the text of a fractional second: nothing, or a period
or comma followed by one or more digits. -/
def isFractionText : List Char → Bool
  | [] => true
  | c :: ds => (c = '.' || c = ',') && !ds.isEmpty && ds.all isDigit

/-- Specification side: `s` is the pattern string `p` (the 20 runes
YYYY-MM-DDTHH:MM:SSZ) up to the two liberties of `time.Parse`: the hour is
written as in `p` or, when it starts with a zero, without that zero, and
nothing or a fractional second stands between the seconds and the final Z. -/
def IsLenientFormOf (p s : List Char) : Prop :=
  ∃ hour frac : List Char,
    (hour = (p.drop 11).take 2 ∨ (hour = (p.drop 12).take 1 ∧ (p.drop 11).take 1 = ['0'])) ∧
    isFractionText frac = true ∧
    s = p.take 11 ++ (hour ++ ((p.drop 13).take 6 ++ (frac ++ p.drop 19)))

/-! ## Concrete inputs -/

/-- A page-fetch function with a single page, which reports the count -1:
`{"count": -1, "next": "", "previous": "", "results": [7]}`. -/
def fetchSingleNegativeCount (page : Int) (_ : Option Unit) :
    Except String (PaginatedResponse Nat) :=
  if page = 0 then .ok ⟨-1, "", "", [7]⟩ else .error "no such page"

/-- A page-fetch function whose page 0 reports the count -1 and has a `Next`
link, and whose fetch of page 1 fails. -/
def fetchNegativeCountThenFail (page : Int) (_ : Option Unit) :
    Except String (PaginatedResponse Nat) :=
  if page = 0 then .ok ⟨-1, "https://oncall/api/v1/alerts?page=2", "", [1]⟩
  else .error "connection reset"

/-- A page-fetch function with a single page of two results, reporting the
given count. -/
def fetchTwoResults (count : Int) (page : Int) (_ : Option Unit) :
    Except String (PaginatedResponse Nat) :=
  if page = 0 then .ok ⟨count, "", "", [1, 2]⟩ else .error "no such page"

/-- An escalation policy whose rule is the NotifyIfTimeFromTo variant, from
09:00:00 to 17:00:00. -/
def policyNotifyIfTimeFromTo : EscalationPolicy :=
  { ID := "E3GA6SJETWWJS", EscalationChainID := "F5JU6KJET33FE", Position := 0,
    Rule := some (.NotifyIfTimeFromTo ⟨2023, 1, 15, 9, 0, 0, 0, UTC⟩
      ⟨2023, 1, 15, 17, 0, 0, 0, UTC⟩) }

/-- A schedule in UTC with an iCal calendar. -/
def scheduleICal : Schedule :=
  { ID := "SBM7DV7BKFUYU", Name := "Demo schedule iCal", TeamID := "T3HRAP3K3IKOP",
    TimeZone := some UTC, ICalOverridesURL := "",
    Slack := ⟨"MEOW_CHANNEL", "MEOW_SLACK_ID"⟩,
    Calendar := some (.ICal "https://example.com/meow_calendar.ics") }

/-- A schedule in UTC with a web calendar of two shifts. -/
def scheduleWeb : Schedule :=
  { ID := "SBM7DV7BKFUYU", Name := "Demo schedule web", TeamID := "",
    TimeZone := some UTC, ICalOverridesURL := "",
    Slack := ⟨"MEOW_CHANNEL", "MEOW_SLACK_ID"⟩,
    Calendar := some (.Web (some ["OH3V5FYQEYJ6M", "O9WTH7CKM3KZW"])) }

/-- An escalation-policy object of a type this client does not know, with a
repeated key, a null, a key in upper case and members that are no header
field. -/
def unknownTypeObject : List (String × JSON) :=
  [ ("id", .string "old"),
    ("ID", .string "E3GA6SJETWWJS"),
    ("escalation_chain_id", .string "F5JU6KJET33FE"),
    ("position", .number (.int 3)),
    ("type", .string "Notify_Team_Members"),
    ("important", .number (.other "1.5")),
    ("duration", .array [.null, .object []]),
    ("escalation_chain_id", .null) ]

/-- One escalation policy for each of the eight rule variants other than
NotifyIfTimeFromTo, with every field set. -/
def policiesOfOtherVariants : List EscalationPolicy :=
  [ ⟨"E1", "F5JU6KJET33FE", 0, some (.Wait 300000000000)⟩,
    ⟨"E2", "F5JU6KJET33FE", 1, some (.NotifyPersons true (some ["U4DNY931HHJS5", "U6RV9WPSL6DFW"]))⟩,
    ⟨"E3", "F5JU6KJET33FE", 2, some (.NotifyPersonNextEachTime (some ["U4DNY931HHJS5"]))⟩,
    ⟨"E4", "F5JU6KJET33FE", 3, some (.NotifyOnCallFromSchedule true "SBM7DV7BKFUYU")⟩,
    ⟨"E5", "F5JU6KJET33FE", 4, some (.NotifyUserGroup false "GPFAPH7J7BKJB")⟩,
    ⟨"E6", "F5JU6KJET33FE", 5, some (.TriggerAction "KGEFG74LU1D8L")⟩,
    ⟨"E7", "F5JU6KJET33FE", 6, some .Resolve⟩,
    ⟨"E8", "F5JU6KJET33FE", -1, some .NotifyWholeChannel⟩ ]

/-! ## Theorems: pagination -/

theorem wrapInt_succ (p : Int) (h0 : 0 ≤ p) (h : p + 1 < 2 ^ 63) : wrapInt (p + 1) = p + 1 := by
  unfold wrapInt; omega

theorem makeSlice_valid {T : Type} (maxCap : Nat) (c : Int) (h0 : 0 ≤ c) (h1 : c ≤ maxCap) :
    makeSlice maxCap c = (some [] : Option (List T)) := by
  unfold makeSlice
  rw [if_neg]
  omega

theorem makeSlice_negative {T : Type} (maxCap : Nat) (c : Int) (h : c < 0) :
    makeSlice maxCap c = (none : Option (List T)) := by
  unfold makeSlice
  rw [if_pos (Or.inl h)]

/-- The loop of `paginate`, started on page `j` of a page sequence whose last
page `k = j + d` is the first with an empty `Next`, fetches the pages
`j+1 .. k` in order and returns what it had plus their results. -/
theorem paginateLoop_collects {T F E : Type}
    (fn : Int → Option F → Except E (PaginatedResponse T)) (filter : Option F)
    (pages : Nat → PaginatedResponse T) (k : Nat) (hk : (k : Int) < 2 ^ 63)
    (hok : ∀ i, i ≤ k → fn (i : Int) filter = .ok (pages i))
    (hnext : ∀ i, i < k → (pages i).Next ≠ "") (hlast : (pages k).Next = "") :
    ∀ (d j fuel : Nat) (ret : List T) (calls : List (Int × Option F)),
      j + d = k → d < fuel →
      paginateLoop fn filter fuel (j : Int) (pages j) ret calls =
        some (.returned
            (some (ret ++ (List.range' (j + 1) d).flatMap fun i => (pages i).Results)) none,
          calls ++ (List.range' (j + 1) d).map fun i => ((i : Int), filter)) := by
  intro d
  induction d with
  | zero =>
    intro j fuel ret calls hj hfuel
    obtain ⟨f, rfl⟩ : ∃ f, fuel = f + 1 := ⟨fuel - 1, by omega⟩
    have hjk : j = k := by omega
    subst hjk
    simp [paginateLoop, hlast]
  | succ d ih =>
    intro j fuel ret calls hj hfuel
    obtain ⟨f, rfl⟩ : ∃ f, fuel = f + 1 := ⟨fuel - 1, by omega⟩
    have hw : wrapInt ((j : Int) + 1) = ((j + 1 : Nat) : Int) := by
      rw [wrapInt_succ _ (by omega) (by omega)]; push_cast; rfl
    have hfn := hok (j + 1) (by omega)
    have hn := hnext j (by omega)
    rw [paginateLoop, if_pos hn]
    simp only [hw, hfn]
    rw [ih (j + 1) f _ _ (by omega) (by omega)]
    simp [List.range'_succ, List.append_assoc]

/-- On a page sequence whose page `k` is the first with an empty `Next`, and
whose page 0 reports a count that `make` accepts, `paginate` returns the
results of the pages `0 .. k` in order with a nil error, after exactly the
calls `fn(0, filter), ..., fn(k, filter)`. -/
theorem paginate_collects {T F E : Type} (maxCap fuel : Nat)
    (fn : Int → Option F → Except E (PaginatedResponse T)) (filter : Option F)
    (pages : Nat → PaginatedResponse T) (k : Nat) (hk : (k : Int) < 2 ^ 63)
    (hfuel : k < fuel)
    (hok : ∀ i, i ≤ k → fn (i : Int) filter = .ok (pages i))
    (hnext : ∀ i, i < k → (pages i).Next ≠ "") (hlast : (pages k).Next = "")
    (hcap0 : 0 ≤ (pages 0).Count) (hcap1 : (pages 0).Count ≤ maxCap) :
    paginate maxCap fuel fn filter =
      some (.returned (some ((List.range (k + 1)).flatMap fun i => (pages i).Results)) none,
        (List.range (k + 1)).map fun i => ((i : Int), filter)) := by
  have h0 := hok 0 (Nat.zero_le k)
  have hloop := paginateLoop_collects fn filter pages k hk hok hnext hlast k 0 fuel
    ([] ++ (pages 0).Results) [((0 : Int), filter)] (by omega) hfuel
  simp only [Nat.cast_zero] at h0 hloop
  simp only [paginate, h0, makeSlice_valid maxCap _ hcap0 hcap1, hloop]
  simp [List.range_eq_range', List.range'_succ]

/-- The loop of `paginate`, started on page `j` when the pages up to `m - 1`
have a non-empty `Next` and the fetch of page `m = j + d + 1` fails, fetches
the pages `j+1 .. m` in order and returns the error with a nil slice. -/
theorem paginateLoop_aborts {T F E : Type}
    (fn : Int → Option F → Except E (PaginatedResponse T)) (filter : Option F)
    (pages : Nat → PaginatedResponse T) (m : Nat) (err : E) (hm : (m : Int) < 2 ^ 63)
    (hok : ∀ i, i < m → fn (i : Int) filter = .ok (pages i))
    (hnext : ∀ i, i < m → (pages i).Next ≠ "")
    (hfail : fn (m : Int) filter = .error err) :
    ∀ (d j fuel : Nat) (ret : List T) (calls : List (Int × Option F)),
      j + d + 1 = m → d < fuel →
      paginateLoop fn filter fuel (j : Int) (pages j) ret calls =
        some (.returned none (some err),
          calls ++ (List.range' (j + 1) (d + 1)).map fun i => ((i : Int), filter)) := by
  intro d
  induction d with
  | zero =>
    intro j fuel ret calls hj hfuel
    obtain ⟨f, rfl⟩ : ∃ f, fuel = f + 1 := ⟨fuel - 1, by omega⟩
    have hw : wrapInt ((j : Int) + 1) = ((j + 1 : Nat) : Int) := by
      rw [wrapInt_succ _ (by omega) (by omega)]; push_cast; rfl
    have hjm : j + 1 = m := by omega
    have hn := hnext j (by omega)
    rw [paginateLoop, if_pos hn]
    simp only [hw, hjm, hfail]
    simp [List.range'_succ, hjm]
  | succ d ih =>
    intro j fuel ret calls hj hfuel
    obtain ⟨f, rfl⟩ : ∃ f, fuel = f + 1 := ⟨fuel - 1, by omega⟩
    have hw : wrapInt ((j : Int) + 1) = ((j + 1 : Nat) : Int) := by
      rw [wrapInt_succ _ (by omega) (by omega)]; push_cast; rfl
    have hfn := hok (j + 1) (by omega)
    have hn := hnext j (by omega)
    rw [paginateLoop, if_pos hn]
    simp only [hw, hfn]
    rw [ih (j + 1) f _ _ (by omega) (by omega)]
    simp [List.range'_succ, List.append_assoc]

/-- When the fetch of page `m` fails with `err` after pages `0 .. m-1` with a
non-empty `Next`, and page 0 (if there is one) reports a count that `make`
accepts, `paginate` returns the nil slice and `err`, after exactly the calls
`fn(0, filter), ..., fn(m, filter)`. -/
theorem paginate_aborts {T F E : Type} (maxCap fuel : Nat)
    (fn : Int → Option F → Except E (PaginatedResponse T)) (filter : Option F)
    (pages : Nat → PaginatedResponse T) (m : Nat) (err : E) (hm : (m : Int) < 2 ^ 63)
    (hfuel : m ≤ fuel)
    (hok : ∀ i, i < m → fn (i : Int) filter = .ok (pages i))
    (hnext : ∀ i, i < m → (pages i).Next ≠ "")
    (hfail : fn (m : Int) filter = .error err)
    (hcap : 0 < m → 0 ≤ (pages 0).Count ∧ (pages 0).Count ≤ maxCap) :
    paginate maxCap fuel fn filter =
      some (.returned none (some err), (List.range (m + 1)).map fun i => ((i : Int), filter)) := by
  rcases Nat.eq_zero_or_pos m with h | h
  · subst h
    simp only [Nat.cast_zero] at hfail
    simp [paginate, hfail, List.range_eq_range', List.range'_succ]
  · have h0 := hok 0 h
    have hloop := paginateLoop_aborts fn filter pages m err hm hok hnext hfail (m - 1) 0 fuel
      ([] ++ (pages 0).Results) [((0 : Int), filter)] (by omega) (by omega)
    have hm1 : m - 1 + 1 = m := by omega
    simp only [Nat.cast_zero] at h0 hloop
    simp only [paginate, h0, makeSlice_valid maxCap _ (hcap h).1 (hcap h).2, hloop, hm1]
    simp [List.range_eq_range', List.range'_succ]

/-- The loop of `paginate` never reads a count: two page-fetch functions that
differ only in the counts they report drive it the same way. -/
theorem paginateLoop_count_irrelevant {T F E : Type}
    (fn fn1 : Int → Option F → Except E (PaginatedResponse T)) (filter : Option F)
    (cnt : Int → Int)
    (hfn : ∀ p, fn1 p filter = (fn p filter).map fun r => { r with Count := cnt p }) :
    ∀ (fuel : Nat) (page : Int) (r : PaginatedResponse T) (c : Int) (ret : List T)
      (calls : List (Int × Option F)),
      paginateLoop fn1 filter fuel page { r with Count := c } ret calls =
        paginateLoop fn filter fuel page r ret calls := by
  intro fuel
  induction fuel with
  | zero => intro page r c ret calls; rfl
  | succ f ih =>
    intro page r c ret calls
    rw [paginateLoop, paginateLoop]
    by_cases hn : r.Next ≠ ""
    · rw [if_pos hn, if_pos (show ({ r with Count := c } : PaginatedResponse T).Next ≠ "" from hn)]
      simp only [hfn]
      cases hres : fn (wrapInt (page + 1)) filter with
      | error e => rfl
      | ok r1 =>
        simp only [Except.map]
        exact ih _ r1 _ _ _
    · rw [if_neg hn, if_neg (show ¬ ({ r with Count := c } : PaginatedResponse T).Next ≠ "" from hn)]

/-- Two page-fetch functions that differ only in the counts they report, both
reporting on page 0 a count that `make` accepts, give `paginate` the same
result and the same calls, for every fuel. -/
theorem paginate_count_irrelevant {T F E : Type} (maxCap fuel : Nat)
    (fn fn1 : Int → Option F → Except E (PaginatedResponse T)) (filter : Option F)
    (cnt : Int → Int)
    (hfn : ∀ p, fn1 p filter = (fn p filter).map fun r => { r with Count := cnt p })
    (hcap : ∀ r, fn 0 filter = .ok r → 0 ≤ r.Count ∧ r.Count ≤ maxCap)
    (hcap1 : 0 ≤ cnt 0 ∧ cnt 0 ≤ maxCap) :
    paginate maxCap fuel fn1 filter = paginate maxCap fuel fn filter := by
  unfold paginate
  simp only [hfn]
  cases hres : fn 0 filter with
  | error e => rfl
  | ok r =>
    have hr := hcap r hres
    simp only [Except.map]
    rw [makeSlice_valid maxCap _ hcap1.1 hcap1.2, makeSlice_valid maxCap _ hr.1 hr.2]
    exact paginateLoop_count_irrelevant fn fn1 filter cnt hfn fuel 0 r _ _ _

/-- C1: a page-fetch function that succeeds on page 0 with an empty `Next`
(so k = 0) and a reported count of -1 makes `paginate` panic in
`make([]T, 0, pageResp.Count)` after its single call, for every allocation
limit and fuel, where the claim has it return the results of page 0 with a nil
error. -/
theorem paginate_panics_on_single_page_with_negative_count :
    fetchSingleNegativeCount 0 none = .ok ⟨-1, "", "", [7]⟩ ∧
    ∀ maxCap fuel : Nat,
      paginate maxCap fuel fetchSingleNegativeCount none =
        some (.panicked, [((0 : Int), none)]) := by
  refine ⟨rfl, ?_⟩
  intro maxCap fuel
  have h : fetchSingleNegativeCount 0 none = .ok ⟨-1, "", "", [7]⟩ := rfl
  simp only [paginate, h]
  rw [makeSlice_negative maxCap (-1) (by decide)]

/-- C2: when page 0 succeeds with a non-empty `Next` and a reported count of
-1 and the fetch of page 1 fails, `paginate` panics after the call for page 0
and never makes the failing call, where the claim has it return the error of
page 1 with a nil slice. -/
theorem paginate_panics_before_failing_fetch :
    (∃ r, fetchNegativeCountThenFail 0 none = .ok r ∧ r.Next ≠ "") ∧
    fetchNegativeCountThenFail 1 none = .error "connection reset" ∧
    ∀ maxCap fuel : Nat,
      paginate maxCap fuel fetchNegativeCountThenFail none =
        some (.panicked, [((0 : Int), none)]) := by
  refine ⟨⟨_, rfl, by decide⟩, rfl, ?_⟩
  intro maxCap fuel
  have h : fetchNegativeCountThenFail 0 none =
      .ok ⟨-1, "https://oncall/api/v1/alerts?page=2", "", [1]⟩ := rfl
  simp only [paginate, h]
  rw [makeSlice_negative maxCap (-1) (by decide)]

/-- C10: on a single page of two results that reports the count 2, `paginate`
returns the two results; with the count of that page replaced by -1 and
nothing else changed it panics, for every allocation limit and fuel. -/
theorem paginate_result_depends_on_first_count :
    paginate 1000 5 (fetchTwoResults 2) none =
      some (.returned (some [1, 2]) none, [((0 : Int), none)]) ∧
    ∀ maxCap fuel : Nat,
      paginate maxCap fuel (fetchTwoResults (-1)) none =
        some (.panicked, [((0 : Int), none)]) := by
  refine ⟨by decide, ?_⟩
  intro maxCap fuel
  have h : fetchTwoResults (-1) 0 none = .ok ⟨-1, "", "", [1, 2]⟩ := rfl
  simp only [paginate, h]
  rw [makeSlice_negative maxCap (-1) (by decide)]

/-! ## Theorems: the registry -/

/-- C6: the registry of escalation-policy rules is consistent in both
directions. Every type from Wait through NotifyIfTimeFromTo has a string under
which `escalationPolicyRuleFromString` returns a rule of that type; and for
every string `s` the function returns a rule exactly when `ToLower s` is one
of the nine registered strings (the lookup table without its entry for
unknown), the type of that rule having `ToLower s` as its string. -/
theorem registry_consistent :
    (∀ t : EscalationPolicyType,
      EscalationPolicyTypeWait ≤ t → t ≤ EscalationPolicyTypeNotifyIfTimeFromTo →
      ∃ r, escalationPolicyRuleFromString (EscalationPolicyType.String t) = some r ∧
        r.EscalationPolicyType = t) ∧
    (∀ s : String,
      (escalationPolicyRuleFromString s ≠ none ↔
        ToLower s ∈ escalationPolicyTypeStringLookup.drop 1) ∧
      ∀ r, escalationPolicyRuleFromString s = some r →
        EscalationPolicyType.String r.EscalationPolicyType = ToLower s) := by
  constructor
  · intro t h1 h2
    simp only [EscalationPolicyTypeWait, EscalationPolicyTypeNotifyIfTimeFromTo] at h1 h2
    interval_cases t <;> exact ⟨_, rfl, rfl⟩
  · intro s
    simp only [escalationPolicyRuleFromString, escalationPolicyTypeStringLookup, List.drop]
    generalize ToLower s = l
    constructor
    · split_ifs <;> simp_all
    · intro r
      split_ifs <;> simp_all <;> (intro h; subst h; rfl)

/-! ## Theorems: the time-of-day codec -/

theorem digitChar_ne_minus (n : Nat) : digitChar n ≠ '-' := by
  have h : ∀ m : Fin 10, Char.ofNat (48 + m.val) ≠ '-' := by decide
  exact h ⟨n % 10, Nat.mod_lt n (by decide)⟩

theorem minus_not_mem_decimalAux (fuel : Nat) :
    ∀ (n : Nat) (acc : List Char), '-' ∉ acc → '-' ∉ decimalAux fuel n acc := by
  induction fuel with
  | zero => intro n acc h; simpa [decimalAux] using h
  | succ f ih =>
    intro n acc h
    have hd : '-' ∉ digitChar n :: acc := by
      intro hm
      rcases List.mem_cons.mp hm with h1 | h1
      · exact digitChar_ne_minus n h1.symm
      · exact h h1
    rw [decimalAux]
    split_ifs
    · exact hd
    · exact ih _ _ hd

theorem minus_not_mem_appendInt_nat (n width : Nat) : '-' ∉ appendInt (n : Int) width := by
  have hneg : ¬ ((n : Int) < 0) := by omega
  have hdec : '-' ∉ decimal (n : Int).natAbs :=
    minus_not_mem_decimalAux _ _ [] (by simp)
  simp only [appendInt, if_neg hneg, List.nil_append, List.mem_append, not_or]
  refine ⟨?_, hdec⟩
  intro h
  have := List.eq_of_mem_replicate h
  exact absurd this (by decide)

theorem minus_not_mem_formatIsoTimeOfDay (t : Time) : '-' ∉ formatIsoTimeOfDay t := by
  have h1 := minus_not_mem_appendInt_nat t.hour 2
  have h2 := minus_not_mem_appendInt_nat t.minute 2
  have h3 := minus_not_mem_appendInt_nat t.second 2
  have hc : ('-' : Char) ≠ ':' := by decide
  have hz : ('-' : Char) ≠ 'Z' := by decide
  simp [formatIsoTimeOfDay, h1, h2, h3, hc, hz]

theorem parseLongYear_rest (v rest : List Char) (y : Nat)
    (h : parseLongYear v = some (y, rest)) : ∀ c ∈ rest, c ∈ v := by
  match v, h with
  | a :: b :: c :: d :: r, h =>
    simp only [parseLongYear] at h
    split_ifs at h
    simp only [Option.some.injEq, Prod.mk.injEq] at h
    obtain ⟨-, rfl⟩ := h
    intro x hx
    simp [hx]

theorem skipChar_mem (c : Char) (v rest : List Char) (h : skipChar c v = some rest) :
    c ∈ v := by
  match v, h with
  | x :: r, h =>
    simp only [skipChar] at h
    split_ifs at h with hx
    simp [hx]

/-- A value that `time.Parse` accepts under `isoTimeLayout` contains a
hyphen. -/
theorem parseIsoTime_none_of_no_minus (v : List Char) (h : '-' ∉ v) :
    parseIsoTime v = none := by
  unfold parseIsoTime
  cases hy : parseLongYear v with
  | none => rfl
  | some p =>
    obtain ⟨y, rest⟩ := p
    have hrest : '-' ∉ rest := fun hm => h (parseLongYear_rest v rest y hy _ hm)
    have hskip : skipChar '-' rest = none := by
      cases hs : skipChar '-' rest with
      | none => rfl
      | some r => exact absurd (skipChar_mem _ _ _ hs) hrest
    simp [hskip]

/-- The decoder `timeFromString` rejects every output of the encoder
`timeOfDayToString`. -/
theorem timeFromString_timeOfDayToString (t : Time) :
    timeFromString (timeOfDayToString t) =
      .error (.timeParse isoTimeLayout (timeOfDayToString t)) := by
  simp only [timeFromString, timeOfDayToString,
    parseIsoTime_none_of_no_minus _ (minus_not_mem_formatIsoTimeOfDay t)]

/-- C8: for every pair of times `From` and `To`, and whatever the receiver
held, `EscalationPolicyRuleNotifyIfTimeFromTo.UnmarshalJSON` applied to the
output of `MarshalJSON` returns the parse error of `timeFromString` on the
encoded `From` (a time of day, which the full-timestamp layout rejects) and
leaves the zero time in `From`; it never returns the times. -/
theorem notifyIfTimeFromTo_decode_of_encode_fails (From To from0 to0 : Time) :
    EscalationPolicyRuleNotifyIfTimeFromTo.UnmarshalJSON
        (.object (EscalationPolicyRuleNotifyIfTimeFromTo.MarshalJSON From To)) from0 to0 =
      ((Time.zero, to0), some (.timeParse isoTimeLayout (timeOfDayToString From))) := by
  have hdec : unmarshalStruct "oncall.escalationPolicyRuleNotifyIfTimeFromToRaw"
      escalationPolicyRuleNotifyIfTimeFromToRaw.step
      (.object (EscalationPolicyRuleNotifyIfTimeFromTo.MarshalJSON From To))
      { From := "", To := "" } =
      ({ From := timeOfDayToString From, To := timeOfDayToString To }, none) := rfl
  simp only [EscalationPolicyRuleNotifyIfTimeFromTo.UnmarshalJSON, hdec,
    timeFromString_timeOfDayToString]

/-- C6, at the type NotifyOnCallFromSchedule and at the string
"Notify_User_GROUP". -/
theorem registry_consistent_witness :
    (∃ r, escalationPolicyRuleFromString (EscalationPolicyType.String 4) = some r ∧
      r.EscalationPolicyType = 4) ∧
    EscalationPolicyType.String
      (EscalationPolicyRule.NotifyUserGroup false "").EscalationPolicyType =
        ToLower "Notify_User_GROUP" :=
  ⟨registry_consistent.1 4 (by decide) (by decide),
    (registry_consistent.2 "Notify_User_GROUP").2 _ rfl⟩

/-! ## Theorems: the keys of an encoded entity -/

theorem mapSet_forall_key (P : String → Prop) (key : String) (value : JSON) (hk : P key) :
    ∀ m : GoMap, (∀ kv ∈ m, P kv.1) → ∀ kv ∈ mapSet key value m, P kv.1 := by
  intro m
  induction m with
  | nil =>
    intro _ kv hkv
    simp only [mapSet, List.mem_singleton] at hkv
    subst hkv; exact hk
  | cons x rest ih =>
    obtain ⟨k, v⟩ := x
    intro hm kv hkv
    simp only [mapSet] at hkv
    split_ifs at hkv
    · rcases List.mem_cons.mp hkv with h | h
      · subst h; exact hk
      · exact hm kv (List.mem_cons_of_mem _ h)
    · rcases List.mem_cons.mp hkv with h | h
      · subst h; exact hk
      · exact hm kv h
    · rcases List.mem_cons.mp hkv with h | h
      · subst h; exact hm _ (List.mem_cons_self _ _)
      · exact ih (fun kv hkv => hm kv (List.mem_cons_of_mem _ hkv)) kv h

theorem viaInterfaceMembers_forall_key (P : String → Prop) (fmtFloat : JNumber → JNumber) :
    ∀ (kvs : List (String × JSON)) (out : GoMap), (∀ kv ∈ kvs, P kv.1) →
      (∀ kv ∈ out, P kv.1) → ∀ kv ∈ viaInterfaceMembers fmtFloat kvs out, P kv.1 := by
  intro kvs
  induction kvs with
  | nil => intro out _ hout kv hkv; simp only [viaInterfaceMembers] at hkv; exact hout kv hkv
  | cons x rest ih =>
    obtain ⟨k, v⟩ := x
    intro out hkvs hout kv hkv
    simp only [viaInterfaceMembers] at hkv
    exact ih _ (fun kv h => hkvs kv (List.mem_cons_of_mem _ h))
      (mapSet_forall_key P k _ (hkvs (k, v) (List.mem_cons_self _ _)) out hout) kv hkv

theorem rule_members_key_ne_id (rule : EscalationPolicyRule) :
    ∀ kv ∈ rule.members, kv.1 ≠ "id" := by
  cases rule <;>
    simp [EscalationPolicyRule.members, EscalationPolicyRuleNotifyIfTimeFromTo.MarshalJSON,
      escalationPolicyRuleNotifyIfTimeFromToRaw.members]

theorem calendar_members_key_ne_id (cal : ScheduleCalendar) :
    ∀ kv ∈ cal.members, kv.1 ≠ "id" := by
  cases cal <;> simp [ScheduleCalendar.members]

/-- C7: for every escalation policy and every schedule whose ID is the empty
string, with any rule or calendar of the package or none and any other field
values, `MarshalJSON` writes an object none of whose keys is "id". -/
theorem marshal_omits_empty_id (fmtFloat : JNumber → JNumber) :
    (∀ e : EscalationPolicy, e.ID = "" →
      ∃ kvs, EscalationPolicy.MarshalJSON fmtFloat (some e) = .object kvs ∧
        ∀ kv ∈ kvs, kv.1 ≠ "id") ∧
    (∀ s : Schedule, s.ID = "" →
      ∃ kvs, Schedule.MarshalJSON fmtFloat (some s) = .object kvs ∧
        ∀ kv ∈ kvs, kv.1 ≠ "id") := by
  have hset : ∀ (key : String) (value : JSON), key ≠ "id" → ∀ m : GoMap,
      (∀ kv ∈ m, kv.1 ≠ "id") → ∀ kv ∈ mapSet key value m, kv.1 ≠ "id" :=
    fun key value hk => mapSet_forall_key (fun k => k ≠ "id") key value hk
  constructor
  · intro e hid
    refine ⟨_, rfl, ?_⟩
    have hrule : ∀ kv ∈ (match e.Rule with
        | some rule =>
          mapSet "type" (.string (EscalationPolicyType.String rule.EscalationPolicyType))
            (viaInterfaceMembers fmtFloat rule.members ([] : GoMap))
        | none => ([] : GoMap)), kv.1 ≠ "id" := by
      cases e.Rule with
      | none => simp
      | some rule =>
        exact hset _ _ (by decide) _
          (viaInterfaceMembers_forall_key (fun k => k ≠ "id") fmtFloat _ _
            (rule_members_key_ne_id rule) (by simp))
    simp only [hid, ne_eq, not_true_eq_false, if_false]
    exact hset _ _ (by decide) _ (hset _ _ (by decide) _ hrule)
  · intro s hid
    refine ⟨_, rfl, ?_⟩
    have hcal : ∀ kv ∈ (match s.Calendar with
        | some cal =>
          mapSet "type" (.string (ScheduleCalendarType.String cal.ScheduleCalendarType))
            (viaInterfaceMembers fmtFloat cal.members ([] : GoMap))
        | none => ([] : GoMap)), kv.1 ≠ "id" := by
      cases s.Calendar with
      | none => simp
      | some cal =>
        exact hset _ _ (by decide) _
          (viaInterfaceMembers_forall_key (fun k => k ≠ "id") fmtFloat _ _
            (calendar_members_key_ne_id cal) (by simp))
    simp only [hid, ne_eq, not_true_eq_false, if_false]
    refine hset _ _ (by decide) _ ?_
    cases s.TimeZone with
    | none =>
      simp only
      split_ifs <;> repeat (first | exact hcal | refine hset _ _ (by decide) _ ?_)
    | some tz =>
      simp only
      split_ifs <;> repeat (first | exact hcal | refine hset _ _ (by decide) _ ?_)

/-- C7, at a schedule without ID and with a web calendar. -/
theorem marshal_omits_empty_id_witness :
    ∃ kvs, Schedule.MarshalJSON id (some { scheduleWeb with ID := "" }) = .object kvs ∧
      ∀ kv ∈ kvs, kv.1 ≠ "id" :=
  (marshal_omits_empty_id id).2 { scheduleWeb with ID := "" } rfl

/-! ## Theorems: filters and query parameters -/

theorem Values.mem_Set (key value : String) :
    ∀ (vals : Values) (kv : String × List String),
      kv ∈ Values.Set key value vals → kv = (key, [value]) ∨ kv ∈ vals := by
  intro vals
  induction vals with
  | nil => intro kv h; simpa [Values.Set] using h
  | cons x rest ih =>
    obtain ⟨k, vs⟩ := x
    intro kv h
    simp only [Values.Set] at h
    split_ifs at h
    · rcases List.mem_cons.mp h with h1 | h1
      · exact Or.inl h1
      · exact Or.inr (List.mem_cons_of_mem _ h1)
    · rcases List.mem_cons.mp h with h1 | h1
      · exact Or.inl h1
      · exact Or.inr h1
    · rcases List.mem_cons.mp h with h1 | h1
      · exact Or.inr (h1 ▸ List.mem_cons_self _ _)
      · rcases ih kv h1 with h2 | h2
        · exact Or.inl h2
        · exact Or.inr (List.mem_cons_of_mem _ h2)

theorem decimalAux_ne_nil (fuel n : Nat) (acc : List Char) :
    decimalAux (fuel + 1) n acc ≠ [] := by
  induction fuel generalizing n acc with
  | zero =>
    rw [decimalAux]
    split_ifs
    · simp
    · simp [decimalAux]
  | succ f ih =>
    rw [decimalAux]
    split_ifs
    · simp
    · exact ih _ _

theorem Itoa_ne_empty (x : Int) : Itoa x ≠ "" := by
  intro h
  have hd : (Itoa x).data = [] := by rw [h]
  simp only [Itoa, List.append_eq_nil] at hd
  exact decimalAux_ne_nil _ _ _ hd.2

theorem getPageQuery_no_empty_value (page : Int) (vals : Values)
    (h : ∀ kv ∈ vals, "" ∉ kv.2) : ∀ kv ∈ getPageQuery page vals, "" ∉ kv.2 := by
  intro kv hkv
  unfold getPageQuery at hkv
  split_ifs at hkv
  · rcases Values.mem_Set _ _ _ _ hkv with h1 | h1
    · subst h1
      simpa using (Itoa_ne_empty page).symm
    · exact h kv h1
  · exact h kv hkv

theorem ListAlertFilter.values_no_empty_value (filter : Option ListAlertFilter) :
    ∀ kv ∈ ListAlertFilter.values filter, "" ∉ kv.2 := by
  intro kv hkv
  cases filter with
  | none => simp [ListAlertFilter.values] at hkv
  | some f =>
    simp only [ListAlertFilter.values] at hkv
    split_ifs at hkv with h1 h2 h2
    · rcases Values.mem_Set _ _ _ _ hkv with h | h
      · subst h; simpa using Ne.symm h1
      · rcases Values.mem_Set _ _ _ _ h with h | h
        · subst h; simpa using Ne.symm h2
        · simp at h
    · rcases Values.mem_Set _ _ _ _ hkv with h | h
      · subst h; simpa using Ne.symm h1
      · simp at h
    · rcases Values.mem_Set _ _ _ _ hkv with h | h
      · subst h; simpa using Ne.symm h2
      · simp at h
    · simp at hkv

/-- C9: the query parameters of the four List-by-page operations. (1) A nil
filter and a filter of empty strings give no parameter. (2) A filter with
exactly one non-empty field gives exactly one parameter, the field's wire name
with the field's value. (3) No parameter built from a filter has an empty
value, and none has in the query handed to `doRequest`, to which `getPage`
adds `page` when the page index is positive. (4) Each operation hands
`doRequest` the method GET, its path and that query; for a page index that is
not positive the query is exactly the parameters built from the filter. -/
theorem filter_query_parameters :
    (ListAlertFilter.values none = [] ∧ ListAlertFilter.values (some ⟨"", ""⟩) = [] ∧
      EscalationPolicyFilter.values none = [] ∧ EscalationPolicyFilter.values (some ⟨""⟩) = [] ∧
      ScheduleFilter.values none = [] ∧ ScheduleFilter.values (some ⟨""⟩) = [] ∧
      UserFilter.values none = [] ∧ UserFilter.values (some ⟨""⟩) = []) ∧
    (∀ v : String, v ≠ "" →
      ListAlertFilter.values (some ⟨v, ""⟩) = [("alert_group_id", [v])] ∧
      ListAlertFilter.values (some ⟨"", v⟩) = [("search", [v])] ∧
      EscalationPolicyFilter.values (some ⟨v⟩) = [("escalation_chain_id", [v])] ∧
      ScheduleFilter.values (some ⟨v⟩) = [("name", [v])] ∧
      UserFilter.values (some ⟨v⟩) = [("username", [v])]) ∧
    (∀ page : Int,
      (∀ f, ∀ kv ∈ getPageQuery page (ListAlertFilter.values f), "" ∉ kv.2) ∧
      (∀ f, ∀ kv ∈ getPageQuery page (EscalationPolicyFilter.values f), "" ∉ kv.2) ∧
      (∀ f, ∀ kv ∈ getPageQuery page (ScheduleFilter.values f), "" ∉ kv.2) ∧
      (∀ f, ∀ kv ∈ getPageQuery page (UserFilter.values f), "" ∉ kv.2)) ∧
    (∀ (T E : Type) (doRequest : String → String → Values → Except E (PaginatedResponse T))
      (page : Int),
      (∀ f, ListAlertsByPage doRequest page f =
        doRequest "GET" "alerts" (getPageQuery page (ListAlertFilter.values f))) ∧
      (∀ f, ListEscalationPoliciesByPage doRequest page f =
        doRequest "GET" "escalation_policies"
          (getPageQuery page (EscalationPolicyFilter.values f))) ∧
      (∀ f, ListSchedulesByPage doRequest page f =
        doRequest "GET" "schedules" (getPageQuery page (ScheduleFilter.values f))) ∧
      (∀ f, ListUsersByPage doRequest page f =
        doRequest "GET" "users" (getPageQuery page (UserFilter.values f)))) ∧
    (∀ (page : Int) (vals : Values), page ≤ 0 → getPageQuery page vals = vals) := by
  refine ⟨⟨rfl, rfl, rfl, rfl, rfl, rfl, rfl, rfl⟩, ?_, ?_, ?_, ?_⟩
  · intro v hv
    simp [ListAlertFilter.values, EscalationPolicyFilter.values, ScheduleFilter.values,
      UserFilter.values, Values.Set, hv]
  · intro page
    refine ⟨fun f => getPageQuery_no_empty_value page _ (ListAlertFilter.values_no_empty_value f),
      fun f => getPageQuery_no_empty_value page _ ?_,
      fun f => getPageQuery_no_empty_value page _ ?_,
      fun f => getPageQuery_no_empty_value page _ ?_⟩
    · intro kv hkv
      cases f with
      | none => simp [EscalationPolicyFilter.values] at hkv
      | some f =>
        simp only [EscalationPolicyFilter.values] at hkv
        split_ifs at hkv with h1
        · simp only [Values.Set, List.mem_singleton] at hkv
          subst hkv; simpa using Ne.symm h1
        · simp at hkv
    · intro kv hkv
      cases f with
      | none => simp [ScheduleFilter.values] at hkv
      | some f =>
        simp only [ScheduleFilter.values] at hkv
        split_ifs at hkv with h1
        · simp only [Values.Set, List.mem_singleton] at hkv
          subst hkv; simpa using Ne.symm h1
        · simp at hkv
    · intro kv hkv
      cases f with
      | none => simp [UserFilter.values] at hkv
      | some f =>
        simp only [UserFilter.values] at hkv
        split_ifs at hkv with h1
        · simp only [Values.Set, List.mem_singleton] at hkv
          subst hkv; simpa using Ne.symm h1
        · simp at hkv
  · intro T E doRequest page
    exact ⟨fun _ => rfl, fun _ => rfl, fun _ => rfl, fun _ => rfl⟩
  · intro page vals hp
    unfold getPageQuery
    rw [if_neg (by omega)]

/-- C9, at the user filter with the username "meow" on page 0. -/
theorem filter_query_parameters_witness :
    UserFilter.values (some ⟨"meow"⟩) = [("username", ["meow"])] ∧
    getPageQuery 0 (UserFilter.values (some ⟨"meow"⟩)) = UserFilter.values (some ⟨"meow"⟩) :=
  ⟨(filter_query_parameters.2.1 "meow" (by decide)).2.2.2.2,
    filter_query_parameters.2.2.2.2 0 _ (by decide)⟩

/-! ## Theorems: decoding an entity of unknown type -/

theorem fieldMatches_iff (key name : String) :
    fieldMatches key name = true ↔ foldName key = foldName name := by
  simp only [fieldMatches, Bool.or_eq_true, decide_eq_true_eq]
  constructor
  · rintro (h | h)
    · rw [h]
    · exact h
  · exact Or.inr

theorem getD_or {α : Type} (a b : Option α) (d : α) : (a.or b).getD d = a.getD (b.getD d) := by
  cases a <;> cases b <;> rfl

theorem objectHeaderString_cons (name : String) (kv : String × JSON)
    (kvs : List (String × JSON)) (dflt : String) :
    objectHeaderString name (kv :: kvs) dflt =
      objectHeaderString name kvs (objectHeaderString name [kv] dflt) := by
  simp only [objectHeaderString, List.reverse_cons, List.findSome?_append, getD_or,
    List.reverse_nil, List.nil_append]

theorem objectHeaderInt_cons (name : String) (kv : String × JSON)
    (kvs : List (String × JSON)) (dflt : Int) :
    objectHeaderInt name (kv :: kvs) dflt =
      objectHeaderInt name kvs (objectHeaderInt name [kv] dflt) := by
  simp only [objectHeaderInt, List.reverse_cons, List.findSome?_append, getD_or,
    List.reverse_nil, List.nil_append]

/-- One well-typed member decoded into the raw headers sets the field the
member belongs to, if any, and reports no error. -/
theorem escalationPolicyRawHeaders.step_of_wellTyped (h : escalationPolicyRawHeaders)
    (kv : String × JSON) (hwt : escalationPolicyHeaderWellTyped kv = true) :
    escalationPolicyRawHeaders.step h kv.1 kv.2 =
      ({ ID := objectHeaderString "id" [kv] h.ID,
         EscalationChainID := objectHeaderString "escalation_chain_id" [kv] h.EscalationChainID,
         Position := objectHeaderInt "position" [kv] h.Position,
         Type_ := objectHeaderString "type" [kv] h.Type_ }, none) := by
  obtain ⟨k, v⟩ := kv
  have e1 : foldName "id" ≠ foldName "escalation_chain_id" := by decide
  have e2 : foldName "id" ≠ foldName "position" := by decide
  have e3 : foldName "id" ≠ foldName "type" := by decide
  have e4 : foldName "escalation_chain_id" ≠ foldName "position" := by decide
  have e5 : foldName "escalation_chain_id" ≠ foldName "type" := by decide
  have e6 : foldName "position" ≠ foldName "type" := by decide
  simp only [escalationPolicyHeaderWellTyped] at hwt
  simp only [escalationPolicyRawHeaders.step, objectHeaderString, objectHeaderInt,
    List.reverse_cons, List.reverse_nil, List.nil_append, List.findSome?_cons,
    List.findSome?_nil]
  by_cases h1 : fieldMatches k "id" = true
  · have f1 := (fieldMatches_iff _ _).mp h1
    have h2 : fieldMatches k "escalation_chain_id" = false := by
      rw [Bool.eq_false_iff, Ne, fieldMatches_iff]; intro f; exact e1 (f1.symm.trans f)
    have h3 : fieldMatches k "position" = false := by
      rw [Bool.eq_false_iff, Ne, fieldMatches_iff]; intro f; exact e2 (f1.symm.trans f)
    have h4 : fieldMatches k "type" = false := by
      rw [Bool.eq_false_iff, Ne, fieldMatches_iff]; intro f; exact e3 (f1.symm.trans f)
    cases v <;> simp_all [setField, decodeString, JSON.isStringOrNull]
  · have h1 : fieldMatches k "id" = false := by simpa using h1
    by_cases h2 : fieldMatches k "escalation_chain_id" = true
    · have f2 := (fieldMatches_iff _ _).mp h2
      have h3 : fieldMatches k "position" = false := by
        rw [Bool.eq_false_iff, Ne, fieldMatches_iff]; intro f; exact e4 (f2.symm.trans f)
      have h4 : fieldMatches k "type" = false := by
        rw [Bool.eq_false_iff, Ne, fieldMatches_iff]; intro f; exact e5 (f2.symm.trans f)
      cases v <;> simp_all [setField, decodeString, JSON.isStringOrNull]
    · have h2 : fieldMatches k "escalation_chain_id" = false := by simpa using h2
      by_cases h3 : fieldMatches k "position" = true
      · have f3 := (fieldMatches_iff _ _).mp h3
        have h4 : fieldMatches k "type" = false := by
          rw [Bool.eq_false_iff, Ne, fieldMatches_iff]; intro f; exact e6 (f3.symm.trans f)
        cases v with
        | number n =>
          cases n <;> simp_all [setField, decodeInt, JSON.isIntOrNull]
        | _ => simp_all [setField, decodeInt, JSON.isIntOrNull]
      · have h3 : fieldMatches k "position" = false := by simpa using h3
        by_cases h4 : fieldMatches k "type" = true
        · cases v <;> simp_all [setField, decodeString, JSON.isStringOrNull]
        · have h4 : fieldMatches k "type" = false := by simpa using h4
          simp_all

/-- The members of a well-typed object decoded into the raw headers give the
header values of the object and no error. -/
theorem escalationPolicyRawHeaders.decode_of_wellTyped :
    ∀ (kvs : List (String × JSON)) (h : escalationPolicyRawHeaders),
      (∀ kv ∈ kvs, escalationPolicyHeaderWellTyped kv = true) →
      decodeMembers escalationPolicyRawHeaders.step kvs h =
        ({ ID := objectHeaderString "id" kvs h.ID,
           EscalationChainID := objectHeaderString "escalation_chain_id" kvs h.EscalationChainID,
           Position := objectHeaderInt "position" kvs h.Position,
           Type_ := objectHeaderString "type" kvs h.Type_ }, none) := by
  intro kvs
  induction kvs with
  | nil => intro h _; rfl
  | cons kv rest ih =>
    intro h hwt
    have hstep := escalationPolicyRawHeaders.step_of_wellTyped h kv
      (hwt kv (List.mem_cons_self _ _))
    have hrest := ih (escalationPolicyRawHeaders.step h kv.1 kv.2).1
      (fun x hx => hwt x (List.mem_cons_of_mem _ hx))
    have hfold : decodeMembers escalationPolicyRawHeaders.step (kv :: rest) h =
        decodeMembers escalationPolicyRawHeaders.step rest
          (escalationPolicyRawHeaders.step h kv.1 kv.2).1 := by
      simp only [decodeMembers, List.foldl_cons, hstep, saveError]
    rw [hfold, hrest, hstep]
    simp only [objectHeaderString_cons _ kv rest, objectHeaderInt_cons _ kv rest]

theorem escalationPolicyRuleFromString_eq_none (s : String)
    (h : ToLower s ∉ escalationPolicyTypeStringLookup.drop 1) :
    escalationPolicyRuleFromString s = none := by
  simp only [escalationPolicyTypeStringLookup, List.drop, List.mem_cons, List.mem_singleton,
    List.not_mem_nil, or_false, not_or] at h
  simp only [escalationPolicyRuleFromString]
  simp [h]

/-- C5: for every JSON object whose members are well typed where they are
header fields, and whose type string (the header value of `type`, empty when
absent or null) is after `strings.ToLower` none of the nine registered type
strings, `EscalationPolicy.UnmarshalJSON` returns a nil error and leaves in
the receiver the header values of the object for ID, EscalationChainID and
Position and a nil Rule, whatever the receiver held and whatever other
members the object has. -/
theorem unknown_type_is_tolerated (e0 : EscalationPolicy) (kvs : List (String × JSON))
    (hwt : ∀ kv ∈ kvs, escalationPolicyHeaderWellTyped kv = true)
    (hunk : ToLower (objectHeaderString "type" kvs "") ∉
      escalationPolicyTypeStringLookup.drop 1) :
    EscalationPolicy.UnmarshalJSON e0 (.object kvs) =
      ({ ID := objectHeaderString "id" kvs "",
         EscalationChainID := objectHeaderString "escalation_chain_id" kvs "",
         Position := objectHeaderInt "position" kvs 0,
         Rule := none }, none) := by
  simp only [EscalationPolicy.UnmarshalJSON, unmarshalStruct,
    escalationPolicyRawHeaders.decode_of_wellTyped kvs _ hwt,
    escalationPolicyRuleFromString_eq_none _ hunk]

/-- C5, at `unknownTypeObject`: the type "Notify_Team_Members" is not
registered, the last `id` member (under the key `ID`) and the last non-null
`escalation_chain_id` member give the header values, and the members
`important` and `duration`, of types no rule would accept, are ignored. -/
theorem unknown_type_is_tolerated_witness :
    EscalationPolicy.UnmarshalJSON policyNotifyIfTimeFromTo (.object unknownTypeObject) =
      ({ ID := "E3GA6SJETWWJS", EscalationChainID := "F5JU6KJET33FE", Position := 3,
         Rule := none }, none) :=
  unknown_type_is_tolerated policyNotifyIfTimeFromTo unknownTypeObject (by decide) (by decide)

/-! ## Theorems: round trips of the polymorphic entities -/

/-- C3: for every escalation policy whose rule is the registered
NotifyIfTimeFromTo variant, with any times `From` and `To`, any ID and chain
ID and any position in the range of `int`, `EscalationPolicy.UnmarshalJSON`
applied to the output of `MarshalJSON` returns the parse error of
`timeFromString` on the encoded `From` and leaves the receiver with the header
fields and a nil rule, whatever the float formatting and whatever the receiver
held before. -/
theorem escalationPolicy_round_trip_fails_for_time_rule (fmtFloat : JNumber → JNumber)
    (e0 : EscalationPolicy) (ID EscalationChainID : String) (Position : Int) (From To : Time)
    (hpos : inIntRange Position) :
    EscalationPolicy.UnmarshalJSON e0
        (EscalationPolicy.MarshalJSON fmtFloat
          (some { ID := ID, EscalationChainID := EscalationChainID, Position := Position,
                  Rule := some (.NotifyIfTimeFromTo From To) })) =
      ({ ID := ID, EscalationChainID := EscalationChainID, Position := Position, Rule := none },
        some (.timeParse isoTimeLayout (timeOfDayToString From))) := by
  have hrule : escalationPolicyRuleFromString "notify_if_time_from_to" =
      some (.NotifyIfTimeFromTo Time.zero Time.zero) := rfl
  have hp : decide (inIntRange Position) = true := decide_eq_true hpos
  by_cases hid : ID = ""
  · subst hid
    have hm : EscalationPolicy.MarshalJSON fmtFloat
        (some { ID := "", EscalationChainID := EscalationChainID, Position := Position,
                Rule := some (.NotifyIfTimeFromTo From To) }) =
        .object [("escalation_chain_id", .string EscalationChainID),
          ("notify_if_time_from", .string (timeOfDayToString From)),
          ("notify_if_time_to", .string (timeOfDayToString To)),
          ("position", .number (.int Position)),
          ("type", .string "notify_if_time_from_to")] := rfl
    rw [hm]
    have hwt : ∀ kv ∈ [("escalation_chain_id", JSON.string EscalationChainID),
          ("notify_if_time_from", .string (timeOfDayToString From)),
          ("notify_if_time_to", .string (timeOfDayToString To)),
          ("position", .number (.int Position)),
          ("type", .string "notify_if_time_from_to")],
        escalationPolicyHeaderWellTyped kv = true := by
      intro kv hkv
      simp only [List.mem_cons, List.mem_singleton, List.not_mem_nil, or_false] at hkv
      rcases hkv with rfl | rfl | rfl | rfl | rfl
      · rfl
      · rfl
      · rfl
      · exact hp
      · rfl
    simp only [EscalationPolicy.UnmarshalJSON, unmarshalStruct,
      escalationPolicyRawHeaders.decode_of_wellTyped _ _ hwt]
    have h1 : objectHeaderString "type" [("escalation_chain_id", JSON.string EscalationChainID),
          ("notify_if_time_from", .string (timeOfDayToString From)),
          ("notify_if_time_to", .string (timeOfDayToString To)),
          ("position", .number (.int Position)),
          ("type", .string "notify_if_time_from_to")] "" = "notify_if_time_from_to" := rfl
    simp only [h1, hrule, unmarshalRule]
    have hraw : unmarshalStruct "oncall.escalationPolicyRuleNotifyIfTimeFromToRaw"
        escalationPolicyRuleNotifyIfTimeFromToRaw.step
        (.object [("escalation_chain_id", JSON.string EscalationChainID),
          ("notify_if_time_from", .string (timeOfDayToString From)),
          ("notify_if_time_to", .string (timeOfDayToString To)),
          ("position", .number (.int Position)),
          ("type", .string "notify_if_time_from_to")])
        { From := "", To := "" } =
        ({ From := timeOfDayToString From, To := timeOfDayToString To }, none) := rfl
    simp only [EscalationPolicyRuleNotifyIfTimeFromTo.UnmarshalJSON, hraw,
      timeFromString_timeOfDayToString]
    rfl
  · have hm : EscalationPolicy.MarshalJSON fmtFloat
        (some { ID := ID, EscalationChainID := EscalationChainID, Position := Position,
                Rule := some (.NotifyIfTimeFromTo From To) }) =
        .object [("escalation_chain_id", .string EscalationChainID),
          ("id", .string ID),
          ("notify_if_time_from", .string (timeOfDayToString From)),
          ("notify_if_time_to", .string (timeOfDayToString To)),
          ("position", .number (.int Position)),
          ("type", .string "notify_if_time_from_to")] := by
      simp only [EscalationPolicy.MarshalJSON, ne_eq, hid, not_false_eq_true, if_true]
      rfl
    rw [hm]
    have hwt : ∀ kv ∈ [("escalation_chain_id", JSON.string EscalationChainID),
          ("id", .string ID),
          ("notify_if_time_from", .string (timeOfDayToString From)),
          ("notify_if_time_to", .string (timeOfDayToString To)),
          ("position", .number (.int Position)),
          ("type", .string "notify_if_time_from_to")],
        escalationPolicyHeaderWellTyped kv = true := by
      intro kv hkv
      simp only [List.mem_cons, List.mem_singleton, List.not_mem_nil, or_false] at hkv
      rcases hkv with rfl | rfl | rfl | rfl | rfl | rfl
      · rfl
      · rfl
      · rfl
      · rfl
      · exact hp
      · rfl
    simp only [EscalationPolicy.UnmarshalJSON, unmarshalStruct,
      escalationPolicyRawHeaders.decode_of_wellTyped _ _ hwt]
    have h1 : objectHeaderString "type" [("escalation_chain_id", JSON.string EscalationChainID),
          ("id", .string ID),
          ("notify_if_time_from", .string (timeOfDayToString From)),
          ("notify_if_time_to", .string (timeOfDayToString To)),
          ("position", .number (.int Position)),
          ("type", .string "notify_if_time_from_to")] "" = "notify_if_time_from_to" := rfl
    simp only [h1, hrule, unmarshalRule]
    have hraw : unmarshalStruct "oncall.escalationPolicyRuleNotifyIfTimeFromToRaw"
        escalationPolicyRuleNotifyIfTimeFromToRaw.step
        (.object [("escalation_chain_id", JSON.string EscalationChainID),
          ("id", .string ID),
          ("notify_if_time_from", .string (timeOfDayToString From)),
          ("notify_if_time_to", .string (timeOfDayToString To)),
          ("position", .number (.int Position)),
          ("type", .string "notify_if_time_from_to")])
        { From := "", To := "" } =
        ({ From := timeOfDayToString From, To := timeOfDayToString To }, none) := rfl
    simp only [EscalationPolicyRuleNotifyIfTimeFromTo.UnmarshalJSON, hraw,
      timeFromString_timeOfDayToString]
    rfl

/-- C3, at `policyNotifyIfTimeFromTo` (09:00:00 to 17:00:00): the round trip
returns the parse error on "09:00:00Z". -/
theorem escalationPolicy_round_trip_fails_for_time_rule_witness :
    EscalationPolicy.UnmarshalJSON policyNotifyIfTimeFromTo
        (EscalationPolicy.MarshalJSON id (some policyNotifyIfTimeFromTo)) =
      ({ policyNotifyIfTimeFromTo with Rule := none },
        some (.timeParse "2006-01-02T15:04:05Z" "09:00:00Z")) :=
  escalationPolicy_round_trip_fails_for_time_rule id policyNotifyIfTimeFromTo
    "E3GA6SJETWWJS" "F5JU6KJET33FE" 0 ⟨2023, 1, 15, 9, 0, 0, 0, UTC⟩
    ⟨2023, 1, 15, 17, 0, 0, 0, UTC⟩ (by decide)

/-- No JSON object decodes without error into a schedule that has a
calendar: where the type is registered, `json.Unmarshal(b, &cal)` fails. -/
theorem Schedule.UnmarshalJSON_object_calendar (tzdb : String → Option Location)
    (s0 : Schedule) (kvs : List (String × JSON))
    (h : (Schedule.UnmarshalJSON tzdb s0 (.object kvs)).2 = none) :
    (Schedule.UnmarshalJSON tzdb s0 (.object kvs)).1.Calendar = none := by
  revert h
  simp only [Schedule.UnmarshalJSON, unmarshalStruct, unmarshalIntoCalendar]
  split
  · intro h; simp at h
  · split
    · intro h; simp at h
    · split
      · intro h; simp at h
      · intro _; rfl

/-- C4: for every schedule with a calendar (either registered variant, any
field values, any time zone), `Schedule.UnmarshalJSON` applied to the output
of `MarshalJSON` never returns the schedule with a nil error; and for the
schedules `scheduleICal` and `scheduleWeb` in UTC it returns an
`UnmarshalTypeError` (an object cannot be stored in the `ScheduleCalendar`
interface) and leaves the receiver with the header fields and a nil calendar.
This holds whatever the float formatting, the time zone database and the
receiver. -/
theorem schedule_round_trip_fails_for_registered_calendars (fmtFloat : JNumber → JNumber)
    (tzdb : String → Option Location) (s0 : Schedule) :
    (∀ (s : Schedule) (cal : ScheduleCalendar),
      Schedule.UnmarshalJSON tzdb s0
          (Schedule.MarshalJSON fmtFloat (some { s with Calendar := some cal })) ≠
        ({ s with Calendar := some cal }, none)) ∧
    Schedule.UnmarshalJSON tzdb s0 (Schedule.MarshalJSON fmtFloat (some scheduleICal)) =
      ({ scheduleICal with Calendar := none },
        some (.unmarshalType "object" "oncall.ScheduleCalendar")) ∧
    Schedule.UnmarshalJSON tzdb s0 (Schedule.MarshalJSON fmtFloat (some scheduleWeb)) =
      ({ scheduleWeb with Calendar := none },
        some (.unmarshalType "object" "oncall.ScheduleCalendar")) := by
  refine ⟨?_, rfl, rfl⟩
  intro s cal heq
  obtain ⟨kvs, hk⟩ : ∃ kvs, Schedule.MarshalJSON fmtFloat
      (some { s with Calendar := some cal }) = .object kvs := ⟨_, rfl⟩
  rw [hk] at heq
  have h2 := Schedule.UnmarshalJSON_object_calendar tzdb s0 kvs (by rw [heq])
  rw [heq] at h2
  simp at h2

/-- The round trip through `MarshalJSON` and `UnmarshalJSON` gives back each
of the policies `policiesOfOtherVariants` (the eight rule variants other than
NotifyIfTimeFromTo), when the float formatting leaves the numbers as they
are, and it gives back a schedule that has no calendar. -/
theorem round_trip_examples :
    (∀ e ∈ policiesOfOtherVariants,
      EscalationPolicy.UnmarshalJSON policyNotifyIfTimeFromTo
        (EscalationPolicy.MarshalJSON id (some e)) = (e, none)) ∧
    Schedule.UnmarshalJSON (fun _ => none) scheduleWeb
        (Schedule.MarshalJSON id (some { scheduleICal with Calendar := none })) =
      ({ scheduleICal with Calendar := none }, none) := by
  decide

/-! ## Theorems: the type-to-string lookups -/

/-- C15: `EscalationPolicyType.String` and `ScheduleCalendarType.String` are
total on the integers. Whenever the guard lets a value through to the array
access, the index `toNat` of the value is below the length of the array (so
the access is inside the table and returns the entry at that index); and the
result is "unknown" exactly when the value is not a registered variant:
outside 1..9 for `EscalationPolicyType`, outside 1..2 for
`ScheduleCalendarType`. -/
theorem type_strings_total_and_default_unknown :
    (∀ e : Int,
      (¬ (e < 0 ∨ e ≥ escalationPolicyTypeLen) →
        e.toNat < escalationPolicyTypeStringLookup.length ∧
        escalationPolicyTypeStringLookup.get? e.toNat =
          some (EscalationPolicyType.String e)) ∧
      (EscalationPolicyType.String e = "unknown" ↔ ¬ (1 ≤ e ∧ e ≤ 9))) ∧
    (∀ s : Int,
      (¬ (s < 0 ∨ s ≥ scheduleCalendarTypeLen) →
        s.toNat < scheduleCalendarTypeStringLookup.length ∧
        scheduleCalendarTypeStringLookup.get? s.toNat =
          some (ScheduleCalendarType.String s)) ∧
      (ScheduleCalendarType.String s = "unknown" ↔ ¬ (1 ≤ s ∧ s ≤ 2))) := by
  constructor
  · intro e
    by_cases hg : e < 0 ∨ e ≥ escalationPolicyTypeLen
    · refine ⟨fun h => absurd hg h, ?_⟩
      simp only [EscalationPolicyType.String, if_pos hg, true_iff]
      have hg2 : (e : Int) < 0 ∨ (e : Int) ≥ 10 := hg
      intro h
      have h2 : (1 : Int) ≤ e ∧ (e : Int) ≤ 9 := h
      omega
    · have hg1 : (0 : Int) ≤ e ∧ (e : Int) < 10 := by
        have hg2 : ¬ ((e : Int) < 0 ∨ (e : Int) ≥ 10) := hg
        omega
      obtain ⟨h0, h10⟩ := hg1
      simp only [EscalationPolicyType.String, if_neg hg]
      interval_cases e <;> simp [escalationPolicyTypeStringLookup]
  · intro s
    by_cases hg : s < 0 ∨ s ≥ scheduleCalendarTypeLen
    · refine ⟨fun h => absurd hg h, ?_⟩
      simp only [ScheduleCalendarType.String, if_pos hg, true_iff]
      have hg2 : (s : Int) < 0 ∨ (s : Int) ≥ 3 := hg
      intro h
      have h2 : (1 : Int) ≤ s ∧ (s : Int) ≤ 2 := h
      omega
    · have hg1 : (0 : Int) ≤ s ∧ (s : Int) < 3 := by
        have hg2 : ¬ ((s : Int) < 0 ∨ (s : Int) ≥ 3) := hg
        omega
      obtain ⟨h0, h3⟩ := hg1
      simp only [ScheduleCalendarType.String, if_neg hg]
      interval_cases s <;> simp [scheduleCalendarTypeStringLookup]

/-- C15, at the escalation-policy type 9 (the last registered one) and at the
values -1 and 10 on either side of the table. -/
theorem type_strings_total_and_default_unknown_witness :
    (Int.toNat 9 < escalationPolicyTypeStringLookup.length ∧
      escalationPolicyTypeStringLookup.get? (Int.toNat 9) =
        some (EscalationPolicyType.String 9)) ∧
    EscalationPolicyType.String (-1) = "unknown" ∧
    EscalationPolicyType.String 10 = "unknown" :=
  ⟨(type_strings_total_and_default_unknown.1 9).1 (by decide),
    (type_strings_total_and_default_unknown.1 (-1)).2.mpr (by decide),
    (type_strings_total_and_default_unknown.1 10).2.mpr (by decide)⟩

/-! ## Theorems: the page parameter of getPage -/

theorem Values.lookup_Set_self (key value : String) :
    ∀ vals : Values, Values.lookup key (Values.Set key value vals) = some [value] := by
  intro vals
  induction vals with
  | nil => simp [Values.Set, Values.lookup]
  | cons x rest ih =>
    obtain ⟨k, vs⟩ := x
    simp only [Values.Set]
    split_ifs with h1 h2
    · simp [Values.lookup]
    · simp [Values.lookup]
    · simp [Values.lookup, h1, ih]

theorem Values.lookup_Set_other (key value k : String) (hk : k ≠ key) :
    ∀ vals : Values, Values.lookup k (Values.Set key value vals) = Values.lookup k vals := by
  intro vals
  induction vals with
  | nil => simp [Values.Set, Values.lookup, Ne.symm hk]
  | cons x rest ih =>
    obtain ⟨k1, vs⟩ := x
    simp only [Values.Set]
    split_ifs with h1 h2
    · subst h1
      simp [Values.lookup, Ne.symm hk]
    · simp [Values.lookup, Ne.symm hk]
    · simp only [Values.lookup, ih]

theorem digitVal_digitChar (n : Nat) : digitVal (digitChar n) = n % 10 := by
  have h : ∀ m : Fin 10, digitVal (Char.ofNat (48 + m.val)) = m.val := by decide
  exact h ⟨n % 10, Nat.mod_lt n (by decide)⟩

theorem isDigit_digitChar (n : Nat) : isDigit (digitChar n) = true := by
  have h : ∀ m : Fin 10, isDigit (Char.ofNat (48 + m.val)) = true := by decide
  exact h ⟨n % 10, Nat.mod_lt n (by decide)⟩

theorem digitsValue_append_singleton (ds : List Char) (c : Char) :
    digitsValue (ds ++ [c]) = digitsValue ds * 10 + digitVal c := by
  simp [digitsValue, List.foldl_append]

/-- The digits that `decimalAux` puts in front of its accumulator are decimal
digits whose value is the number, given enough fuel. -/
theorem decimalAux_spec (fuel : Nat) :
    ∀ (n : Nat) (acc : List Char), n < 10 ^ fuel →
      ∃ ds, decimalAux fuel n acc = ds ++ acc ∧ digitsValue ds = n ∧
        ∀ c ∈ ds, isDigit c = true := by
  induction fuel with
  | zero =>
    intro n acc h
    have hn : n = 0 := by simpa using h
    subst hn
    exact ⟨[], rfl, rfl, by simp⟩
  | succ f ih =>
    intro n acc h
    rw [decimalAux]
    split_ifs with h10
    · refine ⟨[digitChar n], rfl, ?_, ?_⟩
      · simp [digitsValue, digitVal_digitChar, Nat.mod_eq_of_lt h10]
      · intro c hc
        simp only [List.mem_singleton] at hc
        subst hc
        exact isDigit_digitChar n
    · have hdiv : n / 10 < 10 ^ f := by
        rw [Nat.div_lt_iff_lt_mul (by decide)]
        rw [pow_succ] at h
        exact h
      obtain ⟨ds, hds, hval, hdig⟩ := ih (n / 10) (digitChar n :: acc) hdiv
      refine ⟨ds ++ [digitChar n], ?_, ?_, ?_⟩
      · rw [hds]; simp
      · rw [digitsValue_append_singleton, hval, digitVal_digitChar]
        omega
      · intro c hc
        rcases List.mem_append.mp hc with h1 | h1
        · exact hdig c h1
        · simp only [List.mem_singleton] at h1
          subst h1
          exact isDigit_digitChar n

/-- `decimal n` is a string of decimal digits whose value is `n`. -/
theorem decimal_spec (n : Nat) :
    digitsValue (decimal n) = n ∧ ∀ c ∈ decimal n, isDigit c = true := by
  have hlt : n < 10 ^ (n + 1) :=
    lt_trans (Nat.lt_pow_self (by decide) n) (Nat.pow_lt_pow_right (by decide) (Nat.lt_succ_self n))
  obtain ⟨ds, hds, hval, hdig⟩ := decimalAux_spec (n + 1) n [] hlt
  have : decimal n = ds := by simp [decimal, hds]
  rw [this]
  exact ⟨hval, hdig⟩

/-- C17: `getPage` hands `doRequest` the query `getPageQuery page vals`. For
every page index above 0 the parameter `page` of that query has the single
value `strconv.Itoa(page)`, a string of decimal digits whose value is the
page index; for every page index that is at most 0 the query is the one
passed in, so no `page` parameter is added; and for every page index, every
parameter other than `page` has the values it had in the query passed in. -/
theorem getPage_page_parameter (page : Int) (vals : Values) :
    (0 < page →
      Values.lookup "page" (getPageQuery page vals) = some [Itoa page] ∧
      (digitsValue (Itoa page).data : Int) = page ∧
      ∀ c ∈ (Itoa page).data, isDigit c = true) ∧
    (page ≤ 0 → getPageQuery page vals = vals) ∧
    (∀ key : String, key ≠ "page" →
      Values.lookup key (getPageQuery page vals) = Values.lookup key vals) ∧
    (∀ (T E : Type) (doRequest : String → String → Values → Except E (PaginatedResponse T))
      (path : String),
      getPage doRequest page path vals = doRequest "GET" path (getPageQuery page vals)) := by
  refine ⟨?_, ?_, ?_, fun _ _ _ _ => rfl⟩
  · intro hp
    have hneg : ¬ page < 0 := by omega
    refine ⟨?_, ?_, ?_⟩
    · simp only [getPageQuery, gt_iff_lt, hp, if_true, Values.lookup_Set_self]
    · simp only [Itoa, if_neg hneg, List.nil_append, (decimal_spec page.natAbs).1]
      omega
    · simp only [Itoa, if_neg hneg, List.nil_append]
      exact (decimal_spec page.natAbs).2
  · intro hp
    simp only [getPageQuery, gt_iff_lt, if_neg (not_lt.mpr hp)]
  · intro key hk
    unfold getPageQuery
    split_ifs
    · exact Values.lookup_Set_other _ _ _ hk _
    · rfl

/-- C17, at page 12 with a query that holds a filter parameter and a stale
`page` parameter. -/
theorem getPage_page_parameter_witness :
    Values.lookup "page" (getPageQuery 12 [("name", ["primary"]), ("page", ["3"])]) =
      some ["12"] ∧
    Values.lookup "name" (getPageQuery 12 [("name", ["primary"]), ("page", ["3"])]) =
      some ["primary"] ∧
    getPageQuery 0 [("name", ["primary"])] = [("name", ["primary"])] :=
  ⟨((getPage_page_parameter 12 _).1 (by decide)).1,
    (getPage_page_parameter 12 _).2.2.1 "name" (by decide),
    (getPage_page_parameter 0 _).2.1 (by decide)⟩

/-! ## Theorems: buildPath -/

set_option maxRecDepth 100000 in
theorem escapeByte_no_separator (b : Nat) :
    ∀ c ∈ escapeByte b, c ≠ '/' ∧ c ≠ '?' ∧ c ≠ '#' := by
  by_cases hb : b < 256
  · have h : ∀ x : Fin 256, ∀ c ∈ escapeByte x.val, c ≠ '/' ∧ c ≠ '?' ∧ c ≠ '#' := by decide
    exact h ⟨b, hb⟩
  · have hs : shouldEscapePathSegment b = true := by
      unfold shouldEscapePathSegment
      rw [if_neg (by omega), if_neg (by omega), if_neg (by omega)]
    have hx : ∀ x : Fin 16, upperHex x.val ≠ '/' ∧ upperHex x.val ≠ '?' ∧
        upperHex x.val ≠ '#' := by decide
    have hmod : ∀ n : Nat, upperHex n = upperHex (n % 16) := by
      intro n; simp [upperHex]
    intro c hc
    simp only [escapeByte, hs, if_true, List.mem_cons, List.mem_singleton,
      List.not_mem_nil, or_false] at hc
    rcases hc with rfl | rfl | rfl
    · decide
    · rw [hmod]; exact hx ⟨b / 16 % 16, Nat.mod_lt _ (by decide)⟩
    · rw [hmod]; exact hx ⟨b % 16, Nat.mod_lt _ (by decide)⟩

/-- The output of `url.PathEscape` contains no `/`, `?` or `#`. -/
theorem PathEscape_no_separator (s : String) :
    ∀ c ∈ (PathEscape s).data, c ≠ '/' ∧ c ≠ '?' ∧ c ≠ '#' := by
  intro c hc
  simp only [PathEscape, pathEscapeChars, List.mem_flatMap] at hc
  obtain ⟨_, _, b, _, hcb⟩ := hc
  exact escapeByte_no_separator b c hcb

theorem count_intercalate_singleton (c : Char) :
    ∀ xs : List (List Char), xs ≠ [] → (∀ x ∈ xs, c ∉ x) →
      (List.intercalate [c] xs).count c = xs.length - 1 := by
  intro xs
  induction xs with
  | nil => intro h; exact absurd rfl h
  | cons x rest ih =>
    intro _ hx
    have hx0 : x.count c = 0 := List.count_eq_zero.mpr (hx x (List.mem_cons_self _ _))
    cases rest with
    | nil => simpa [List.intercalate, List.intersperse] using hx0
    | cons y rest2 =>
      have hrest := ih (by simp) (fun z hz => hx z (List.mem_cons_of_mem _ hz))
      simp only [List.intercalate, List.intersperse, List.flatten_cons, List.count_append,
        List.length_cons] at hrest ⊢
      rw [hx0, hrest]
      simp
      omega

/-- C18: for every non-empty list of segments, the result of `buildPath` is
the path-escaped segments joined by "/" and contains exactly
`len(segments) - 1` characters "/" (none for a single segment), whatever the
segments contain; no escaped segment contains "/", "?" or "#". -/
theorem buildPath_separators (segments : List String) (hne : segments ≠ []) :
    (buildPath segments).data =
      List.intercalate ['/'] (segments.map fun segment => (PathEscape segment).data) ∧
    (buildPath segments).data.count '/' = segments.length - 1 ∧
    ∀ segment ∈ segments, ∀ c ∈ (PathEscape segment).data, c ≠ '/' ∧ c ≠ '?' ∧ c ≠ '#' := by
  refine ⟨rfl, ?_, fun segment _ => PathEscape_no_separator segment⟩
  have h := count_intercalate_singleton '/'
    (segments.map fun segment => (PathEscape segment).data) (by simpa using hne)
    (by
      intro x hx
      simp only [List.mem_map] at hx
      obtain ⟨segment, _, rfl⟩ := hx
      exact fun hmem => (PathEscape_no_separator segment _ hmem).1 rfl)
  simpa [buildPath] using h

/-- C18, at the path of an escalation policy whose id holds "/", "?" and
"#": the result has the one "/" that joins the two segments. -/
theorem buildPath_separators_witness :
    buildPath ["escalation_policies", "../users/U1?x=1#top"] =
      "escalation_policies/..%2Fusers%2FU1%3Fx=1%23top" ∧
    (buildPath ["escalation_policies", "../users/U1?x=1#top"]).data.count '/' = 1 :=
  ⟨by decide, (buildPath_separators ["escalation_policies", "../users/U1?x=1#top"]
    (by decide)).2.1⟩

/-! ## Theorems: the path of a request -/

/-- When the path of the client's URL has anything but slashes, the path that
`Curl` requests is "/", then that path as it is (trailing slashes included),
then "/api/v1/" and the trimmed argument. -/
theorem CurlPath_of_base (basePath path : String) (h : trimSlashes basePath ≠ "") :
    CurlPath basePath path = "/" ++ basePath ++ "/" ++ "api/v1/" ++ trimSlashes path := by
  simp only [CurlPath, h, ne_eq, not_false_eq_true, if_true]
  simp [String.append_assoc]

/-- When the path of the client's URL is empty or all slashes, the path that
`Curl` requests is "/api/v1/" and the trimmed argument. -/
theorem CurlPath_of_empty_base (basePath path : String) (h : trimSlashes basePath = "") :
    CurlPath basePath path = "/api/v1/" ++ trimSlashes path := by
  simp only [CurlPath, h, ne_eq, not_true_eq_false, if_false]
  rfl

/-- C11: for a client whose URL has the path "/grafana" (as in
`https://oncall.example.com/grafana`), the path that `Curl` requests starts
with a doubled slash, for every request path: it is "//grafana/api/v1/" and
the trimmed request path, not "/grafana/api/v1/...". With the base path
"/grafana/" the slash is doubled at the join as well. For an empty base path
and for the base path "/" the path is "/api/v1/" and the trimmed request
path. -/
theorem CurlPath_doubles_slashes :
    (∀ path : String, CurlPath "/grafana" path = "//grafana/api/v1/" ++ trimSlashes path) ∧
    CurlPath "/grafana" "alerts" = "//grafana/api/v1/alerts" ∧
    CurlPath "/grafana/" "/alerts/" = "//grafana//api/v1/alerts" ∧
    CurlPath "" "/alerts/" = "/api/v1/alerts" ∧
    CurlPath "/" "alerts" = "/api/v1/alerts" := by
  refine ⟨fun path => ?_, by decide, by decide, by decide, by decide⟩
  rw [CurlPath_of_base "/grafana" path (by decide)]
  rfl

/-! ## Theorems: the header fields of an encoded entity -/

/-- C14 as stated fails: the escalation policy with a nil rule, an empty ID
and an empty escalation chain ID encodes as
`{"escalation_chain_id": "", "position": 0}`, and the schedule with a nil
calendar and all fields empty as
`{"name": "", "slack": {"channel_id": "", "user_group_id": ""}}`: keys whose
header value is empty are emitted. -/
theorem marshal_emits_empty_header_fields :
    EscalationPolicy.MarshalJSON id
        (some { ID := "", EscalationChainID := "", Position := 0, Rule := none }) =
      .object [("escalation_chain_id", .string ""), ("position", .number (.int 0))] ∧
    Schedule.MarshalJSON id
        (some { ID := "", Name := "", TeamID := "", TimeZone := none, ICalOverridesURL := "",
                Slack := ⟨"", ""⟩, Calendar := none }) =
      .object [("name", .string ""),
        ("slack", .object [("channel_id", .string ""), ("user_group_id", .string "")])] := by
  exact ⟨rfl, rfl⟩

/-- C14, amended: for every escalation policy and every schedule without a
variant, `MarshalJSON` writes no `type` key and omits `id` when the ID is
empty, and for a schedule also `team_id` and `ical_url_overrides` when empty
and `time_zone` when the time zone is nil; `escalation_chain_id` and
`position`, and for a schedule `name` and `slack`, are always written, also
when empty or zero. The object is given in full, in key order. -/
theorem marshal_without_variant (fmtFloat : JNumber → JNumber) :
    (∀ e : EscalationPolicy,
      EscalationPolicy.MarshalJSON fmtFloat (some { e with Rule := none }) =
        .object ([("escalation_chain_id", JSON.string e.EscalationChainID)] ++
          (if e.ID = "" then [] else [("id", JSON.string e.ID)]) ++
          [("position", JSON.number (.int e.Position))])) ∧
    (∀ s : Schedule,
      Schedule.MarshalJSON fmtFloat (some { s with Calendar := none }) =
        .object ((if s.ICalOverridesURL = "" then []
              else [("ical_url_overrides", JSON.string s.ICalOverridesURL)]) ++
          (if s.ID = "" then [] else [("id", JSON.string s.ID)]) ++
          [("name", JSON.string s.Name), ("slack", s.Slack.toJSON)] ++
          (if s.TeamID = "" then [] else [("team_id", JSON.string s.TeamID)]) ++
          (match s.TimeZone with
           | none => []
           | some tz => [("time_zone", JSON.string tz.name)]))) := by
  constructor
  · intro e
    by_cases h1 : e.ID = "" <;>
      simp only [EscalationPolicy.MarshalJSON, h1, ne_eq, not_true_eq_false,
        not_false_eq_true, if_true, if_false] <;> rfl
  · intro s
    cases htz : s.TimeZone <;>
    by_cases h1 : s.ID = "" <;> by_cases h2 : s.TeamID = "" <;>
    by_cases h3 : s.ICalOverridesURL = "" <;>
      simp only [Schedule.MarshalJSON, htz, h1, h2, h3, ne_eq, not_true_eq_false,
        not_false_eq_true, if_true, if_false] <;> rfl

/-! ## Theorems: CreateSchedule -/

/-- The encoding of a schedule with a time zone is an object whose
`time_zone` member is the name of the zone. -/
theorem Schedule.MarshalJSON_time_zone (fmtFloat : JNumber → JNumber) (s : Schedule)
    (tz : Location) (htz : s.TimeZone = some tz) :
    ∃ kvs, Schedule.MarshalJSON fmtFloat (some s) = .object kvs ∧
      lookupKey "time_zone" kvs = some (.string tz.name) := by
  refine ⟨_, rfl, ?_⟩
  cases hcal : s.Calendar with
  | none =>
    by_cases h1 : s.ID = "" <;> by_cases h2 : s.TeamID = "" <;>
    by_cases h3 : s.ICalOverridesURL = "" <;>
      simp only [htz, hcal, h1, h2, h3, ne_eq, not_true_eq_false,
        not_false_eq_true, if_true, if_false] <;> rfl
  | some cal =>
    cases cal <;>
    by_cases h1 : s.ID = "" <;> by_cases h2 : s.TeamID = "" <;>
    by_cases h3 : s.ICalOverridesURL = "" <;>
      simp only [htz, hcal, h1, h2, h3, ne_eq, not_true_eq_false,
        not_false_eq_true, if_true, if_false] <;> rfl

/-- C16: for every name, calendar and options, `CreateSchedule` hands
`doRequest` the method POST, the path "schedules" and the encoding of
`schedOut`, and leaves `*opts` as it was. When `opts` is nil or its time zone
is nil, `schedOut` has the time zone UTC and the encoded object has
`time_zone` equal to "UTC"; when the time zone of `opts` is a location, it is
the time zone of `schedOut` and `time_zone` is its name. -/
theorem CreateSchedule_time_zone (fmtFloat : JNumber → JNumber) (name : String)
    (cal : Option ScheduleCalendar) (opts : Option CreateScheduleOptions) :
    (∀ (E : Type) (doPost : String → String → JSON → Schedule × Option E),
      CreateSchedule fmtFloat doPost name cal opts =
        ((doPost "POST" "schedules"
            (Schedule.MarshalJSON fmtFloat (some (CreateSchedule.schedOut name cal opts)))).1,
         (doPost "POST" "schedules"
            (Schedule.MarshalJSON fmtFloat (some (CreateSchedule.schedOut name cal opts)))).2,
         opts)) ∧
    ((opts = none ∨ ∃ o, opts = some o ∧ o.TimeZone = none) →
      (CreateSchedule.schedOut name cal opts).TimeZone = some UTC ∧
      ∃ kvs, Schedule.MarshalJSON fmtFloat (some (CreateSchedule.schedOut name cal opts)) =
          .object kvs ∧ lookupKey "time_zone" kvs = some (.string "UTC")) ∧
    (∀ o tz, opts = some o → o.TimeZone = some tz →
      (CreateSchedule.schedOut name cal opts).TimeZone = some tz ∧
      ∃ kvs, Schedule.MarshalJSON fmtFloat (some (CreateSchedule.schedOut name cal opts)) =
          .object kvs ∧ lookupKey "time_zone" kvs = some (.string tz.name)) := by
  refine ⟨fun _ _ => rfl, ?_, ?_⟩
  · intro h
    have htz : (CreateSchedule.schedOut name cal opts).TimeZone = some UTC := by
      rcases h with h | ⟨o, h, ho⟩
      · subst h; rfl
      · subst h
        simp [CreateSchedule.schedOut, CreateSchedule.nonNilOpts, ho]
    exact ⟨htz, Schedule.MarshalJSON_time_zone fmtFloat _ UTC htz⟩
  · intro o tz h ho
    subst h
    have htz : (CreateSchedule.schedOut name cal (some o)).TimeZone = some tz := by
      simp [CreateSchedule.schedOut, CreateSchedule.nonNilOpts, ho]
    exact ⟨htz, Schedule.MarshalJSON_time_zone fmtFloat _ tz htz⟩

/-- C16, for a web calendar created with nil options. -/
theorem CreateSchedule_time_zone_witness :
    (CreateSchedule.schedOut "primary" (some (.Web (some ["OH3V5FYQEYJ6M"]))) none).TimeZone =
      some UTC ∧
    ∃ kvs, Schedule.MarshalJSON id
        (some (CreateSchedule.schedOut "primary" (some (.Web (some ["OH3V5FYQEYJ6M"]))) none)) =
          .object kvs ∧ lookupKey "time_zone" kvs = some (.string "UTC") :=
  (CreateSchedule_time_zone id "primary" (some (.Web (some ["OH3V5FYQEYJ6M"]))) none).2.1
    (Or.inl rfl)

/-! ## Theorems: the timestamp codec -/

theorem decimalAux_small (f n : Nat) (acc : List Char) (hf : 0 < f) (h : n < 10) :
    decimalAux f n acc = digitChar n :: acc := by
  obtain ⟨k, rfl⟩ : ∃ k, f = k + 1 := ⟨f - 1, by omega⟩
  rw [decimalAux, if_pos h]

theorem decimalAux_large (f n : Nat) (acc : List Char) (hf : 0 < f) (h : ¬ n < 10) :
    decimalAux f n acc = decimalAux (f - 1) (n / 10) (digitChar n :: acc) := by
  obtain ⟨k, rfl⟩ : ∃ k, f = k + 1 := ⟨f - 1, by omega⟩
  rw [decimalAux, if_neg h]
  rfl

theorem digitChar_zero : digitChar 0 = '0' := by decide

theorem appendInt_two (n : Nat) (h : n < 100) :
    appendInt (n : Int) 2 = [digitChar (n / 10), digitChar n] := by
  have hneg : ¬ ((n : Int) < 0) := by omega
  simp only [appendInt, if_neg hneg, List.nil_append, Int.natAbs_ofNat, decimal]
  by_cases h1 : n < 10
  · rw [decimalAux_small _ _ _ (by omega) h1]
    have h0 : n / 10 = 0 := by omega
    rw [h0, digitChar_zero]
    rfl
  · rw [decimalAux_large _ _ _ (by omega) h1, decimalAux_small _ _ _ (by omega) (by omega)]
    rfl

theorem appendInt_four (n : Nat) (h : n < 10000) :
    appendInt (n : Int) 4 =
      [digitChar (n / 1000), digitChar (n / 100), digitChar (n / 10), digitChar n] := by
  have hneg : ¬ ((n : Int) < 0) := by omega
  simp only [appendInt, if_neg hneg, List.nil_append, Int.natAbs_ofNat, decimal]
  by_cases h1 : n < 10
  · rw [decimalAux_small _ _ _ (by omega) h1]
    have h0 : n / 10 = 0 := by omega
    have h00 : n / 100 = 0 := by omega
    have h000 : n / 1000 = 0 := by omega
    rw [h0, h00, h000, digitChar_zero]
    rfl
  · rw [decimalAux_large _ _ _ (by omega) h1]
    by_cases h2 : n < 100
    · rw [decimalAux_small _ _ _ (by omega) (by omega)]
      have h00 : n / 100 = 0 := by omega
      have h000 : n / 1000 = 0 := by omega
      rw [h00, h000, digitChar_zero]
      rfl
    · rw [decimalAux_large _ _ _ (by omega) (by omega)]
      have e2 : n / 10 / 10 = n / 100 := by omega
      rw [e2]
      by_cases h3 : n < 1000
      · rw [decimalAux_small _ _ _ (by omega) (by omega)]
        have h000 : n / 1000 = 0 := by omega
        rw [h000, digitChar_zero]
        rfl
      · rw [decimalAux_large _ _ _ (by omega) (by omega),
          decimalAux_small _ _ _ (by omega) (by omega)]
        have e3 : n / 100 / 10 = n / 1000 := by omega
        rw [e3]
        rfl

theorem digitVal_lt (c : Char) (hc : isDigit c = true) : digitVal c < 10 := by
  simp only [isDigit, Bool.and_eq_true, decide_eq_true_eq] at hc
  unfold digitVal
  omega

theorem digitChar_eq (c : Char) (hc : isDigit c = true) (n : Nat)
    (hn : n % 10 = digitVal c) : digitChar n = c := by
  simp only [isDigit, Bool.and_eq_true, decide_eq_true_eq] at hc
  have h48 : 48 + digitVal c = c.toNat := by unfold digitVal; omega
  rw [digitChar, hn, h48]
  exact Char.ofNat_toNat c

theorem appendInt_two_digits (a b : Char) (ha : isDigit a = true) (hb : isDigit b = true) :
    appendInt ((digitVal a * 10 + digitVal b : Nat) : Int) 2 = [a, b] := by
  have h1 := digitVal_lt a ha
  have h2 := digitVal_lt b hb
  rw [appendInt_two _ (by omega),
    digitChar_eq a ha _ (by omega), digitChar_eq b hb _ (by omega)]

theorem appendInt_four_digits (a b c d : Char) (ha : isDigit a = true) (hb : isDigit b = true)
    (hc : isDigit c = true) (hd : isDigit d = true) :
    appendInt ((digitVal a * 1000 + digitVal b * 100 + digitVal c * 10 + digitVal d : Nat) : Int)
      4 = [a, b, c, d] := by
  have h1 := digitVal_lt a ha
  have h2 := digitVal_lt b hb
  have h3 := digitVal_lt c hc
  have h4 := digitVal_lt d hd
  rw [appendInt_four _ (by omega),
    digitChar_eq a ha _ (by omega), digitChar_eq b hb _ (by omega),
    digitChar_eq c hc _ (by omega), digitChar_eq d hd _ (by omega)]

theorem skipChar_eq_some (c : Char) (v rest : List Char) (h : skipChar c v = some rest) :
    v = c :: rest := by
  match v, h with
  | x :: r, h =>
    simp only [skipChar] at h
    split_ifs at h with hx
    simp only [Option.some.injEq] at h
    rw [hx, h]

theorem getnum_fixed_eq_some (v rest : List Char) (n : Nat)
    (h : getnum v true = some (n, rest)) :
    ∃ a b, v = a :: b :: rest ∧ isDigit a = true ∧ isDigit b = true ∧
      n = digitVal a * 10 + digitVal b := by
  match v, h with
  | [a], h => simp [getnum] at h
  | a :: b :: r, h =>
    simp only [getnum] at h
    split_ifs at h with h1 h2
    · simp only [Option.some.injEq, Prod.mk.injEq] at h
      refine ⟨a, b, by rw [h.2], by simpa using h1, by simpa using h2, h.1.symm⟩

theorem getnum_free_eq_some (v rest : List Char) (n : Nat)
    (h : getnum v false = some (n, rest)) :
    (∃ a b, v = a :: b :: rest ∧ isDigit a = true ∧ isDigit b = true ∧
      n = digitVal a * 10 + digitVal b) ∨
    (∃ a, v = a :: rest ∧ isDigit a = true ∧ n = digitVal a ∧
      ∀ x r, rest = x :: r → isDigit x = false) := by
  match v, h with
  | [a], h =>
    simp only [getnum] at h
    split_ifs at h with h1
    simp only [Option.some.injEq, Prod.mk.injEq] at h
    refine Or.inr ⟨a, by rw [h.2], by simpa using h1, h.1.symm, ?_⟩
    intro x r hr
    rw [← h.2] at hr
    simp at hr
  | a :: b :: r, h =>
    simp only [getnum] at h
    split_ifs at h with h1 h2
    · simp only [Option.some.injEq, Prod.mk.injEq] at h
      refine Or.inr ⟨a, by rw [h.2], by simpa using h1, h.1.symm, ?_⟩
      intro x r' hr
      rw [← h.2] at hr
      simp only [List.cons.injEq] at hr
      rw [← hr.1]
      simpa using h2
    · simp only [Option.some.injEq, Prod.mk.injEq] at h
      exact Or.inl ⟨a, b, by rw [h.2], by simpa using h1, by simpa using h2, h.1.symm⟩

theorem parseLongYear_eq_some (v rest : List Char) (y : Nat)
    (h : parseLongYear v = some (y, rest)) :
    ∃ a b c d, v = a :: b :: c :: d :: rest ∧ isDigit a = true ∧ isDigit b = true ∧
      isDigit c = true ∧ isDigit d = true ∧
      y = digitVal a * 1000 + digitVal b * 100 + digitVal c * 10 + digitVal d := by
  match v, h with
  | a :: b :: c :: d :: r, h =>
    simp only [parseLongYear] at h
    split_ifs at h with h1
    simp only [Option.some.injEq, Prod.mk.injEq] at h
    simp only [Bool.and_eq_true] at h1
    exact ⟨a, b, c, d, by rw [h.2], h1.1.1.1, h1.1.1.2, h1.1.2, h1.2, h.1.symm⟩

/-- What `parseIsoTime` has read when it succeeds: the results of its steps,
in order. -/
theorem parseIsoTime_eq_some (v : List Char) (t : Time) (h : parseIsoTime v = some t) :
    ∃ (year month day hour minute second : Nat) (v1 v2 v3 v4 v5 v6 v7 v8 v9 v10 v11 : List Char),
      parseLongYear v = some (year, v1) ∧
      skipChar '-' v1 = some v2 ∧ getnum v2 true = some (month, v3) ∧
      skipChar '-' v3 = some v4 ∧ getnum v4 true = some (day, v5) ∧
      skipChar 'T' v5 = some v6 ∧ getnum v6 false = some (hour, v7) ∧
      skipChar ':' v7 = some v8 ∧ getnum v8 true = some (minute, v9) ∧
      skipChar ':' v9 = some v10 ∧ getnum v10 true = some (second, v11) ∧
      skipChar 'Z' (parseFraction v11).2 = some [] ∧
      t = ⟨year, month, day, hour, minute, second, (parseFraction v11).1, UTC⟩ := by
  unfold parseIsoTime at h
  split at h
  · exact absurd h (by simp)
  rename_i year v1 hy
  split at h
  · exact absurd h (by simp)
  rename_i month v3 hmo
  split at h
  · exact absurd h (by simp)
  split at h
  · exact absurd h (by simp)
  rename_i day v5 hd
  split at h
  · exact absurd h (by simp)
  rename_i hour v7 hh
  split at h
  · exact absurd h (by simp)
  split at h
  · exact absurd h (by simp)
  rename_i minute v9 hmi
  split at h
  · exact absurd h (by simp)
  split at h
  · exact absurd h (by simp)
  rename_i second v11 hs
  split at h
  · exact absurd h (by simp)
  split at h
  · exact absurd h (by simp)
  rename_i rest hz
  split at h
  · exact absurd h (by simp)
  rename_i hrest
  split at h
  · exact absurd h (by simp)
  simp only [ne_eq, not_not] at hrest
  subst hrest
  simp only [Option.some.injEq] at h
  obtain ⟨v2, hv2, hmo2⟩ := Option.bind_eq_some.mp hmo
  obtain ⟨v4, hv4, hd2⟩ := Option.bind_eq_some.mp hd
  obtain ⟨v6, hv6, hh2⟩ := Option.bind_eq_some.mp hh
  obtain ⟨v8, hv8, hmi2⟩ := Option.bind_eq_some.mp hmi
  obtain ⟨v10, hv10, hs2⟩ := Option.bind_eq_some.mp hs
  exact ⟨year, month, day, hour, minute, second, v1, v2, v3, v4, v5, v6, v7, v8, v9, v10, v11,
    hy, hv2, hmo2, hv4, hd2, hv6, hh2, hv8, hmi2, hv10, hs2, hz, h.symm⟩

/-- A value of 20 runes that `time.Parse` accepts under `isoTimeLayout` is the
formatting of the time it yields. -/
theorem formatIsoTime_parseIsoTime (v : List Char) (t : Time)
    (h : parseIsoTime v = some t) (hlen : v.length = 20) : formatIsoTime t = v := by
  obtain ⟨year, month, day, hour, minute, second, v1, v2, v3, v4, v5, v6, v7, v8, v9, v10, v11,
    hy, hv2, hmo, hv4, hd, hv6, hh, hv8, hmi, hv10, hs, hz, ht⟩ := parseIsoTime_eq_some v t h
  obtain ⟨y1, y2, y3, y4, ev, hy1, hy2, hy3, hy4, eyear⟩ := parseLongYear_eq_some _ _ _ hy
  have ev1 := skipChar_eq_some _ _ _ hv2
  obtain ⟨m1, m2, ev2, hm1, hm2, emonth⟩ := getnum_fixed_eq_some _ _ _ hmo
  have ev3 := skipChar_eq_some _ _ _ hv4
  obtain ⟨d1, d2, ev4, hd1, hd2, eday⟩ := getnum_fixed_eq_some _ _ _ hd
  have ev5 := skipChar_eq_some _ _ _ hv6
  have ev7 := skipChar_eq_some _ _ _ hv8
  obtain ⟨mi1, mi2, ev8, hmi1, hmi2, eminute⟩ := getnum_fixed_eq_some _ _ _ hmi
  have ev9 := skipChar_eq_some _ _ _ hv10
  obtain ⟨s1, s2, ev10, hs1, hs2, esecond⟩ := getnum_fixed_eq_some _ _ _ hs
  have ez := skipChar_eq_some _ _ _ hz
  rcases getnum_free_eq_some _ _ _ hh with ⟨h1, h2, ev6, hh1, hh2, ehour⟩ | ⟨h1, ev6, hh1, ehour, -⟩
  · -- a two-digit hour: one rune is left after the seconds
    subst ev ev1 ev2 ev3 ev4 ev5 ev6 ev7 ev8 ev9 ev10
    simp only [List.length_cons] at hlen
    have hl : v11.length = 1 := by omega
    obtain ⟨p, rfl⟩ := List.length_eq_one.mp hl
    have hp : p = 'Z' := by
      have : parseFraction [p] = (0, [p]) := rfl
      rw [this] at ez
      simpa using ez
    subst hp
    subst ht eyear emonth eday ehour eminute esecond
    simp only [formatIsoTime, appendInt_four_digits y1 y2 y3 y4 hy1 hy2 hy3 hy4,
      appendInt_two_digits m1 m2 hm1 hm2, appendInt_two_digits d1 d2 hd1 hd2,
      appendInt_two_digits h1 h2 hh1 hh2, appendInt_two_digits mi1 mi2 hmi1 hmi2,
      appendInt_two_digits s1 s2 hs1 hs2, List.cons_append, List.nil_append]
  · -- a one-digit hour: two runes are left, which cannot be the final Z
    subst ev ev1 ev2 ev3 ev4 ev5 ev6 ev7 ev8 ev9 ev10
    simp only [List.length_cons] at hlen
    have hl : v11.length = 2 := by omega
    obtain ⟨p, q, rfl⟩ := List.length_eq_two.mp hl
    exfalso
    simp only [parseFraction] at ez
    split_ifs at ez with hc
    · simp only [Bool.and_eq_true] at hc
      simp [List.dropWhile, hc.2] at ez
    · simp at ez

/-- A string of 20 characters that `timeFromString` accepts is what
`timeToString` writes for the time it yields. -/
theorem timeToString_timeFromString (s : String) (t : Time)
    (h : timeFromString s = .ok t) (hlen : s.length = 20) : timeToString t = s := by
  unfold timeFromString at h
  split at h
  · rename_i t1 hp
    simp only [Except.ok.injEq] at h
    subst h
    have hf := formatIsoTime_parseIsoTime s.data t1 hp (show s.data.length = 20 from hlen)
    simp only [timeToString, hf]
  · exact absurd h (by simp)

/-- C12 as stated fails: `timeFromString` accepts "2023-01-15T10:30:00.5Z" (a
fractional second after the seconds) and "2023-01-15T9:30:00Z" (a one-digit
hour), neither of which matches the pattern YYYY-MM-DDTHH:MM:SSZ, and
`timeToString` of the times they yield is a different string. -/
theorem timeFromString_accepts_strings_timeToString_never_writes :
    timeFromString "2023-01-15T10:30:00.5Z" = .ok ⟨2023, 1, 15, 10, 30, 0, 500000000, UTC⟩ ∧
    timeToString ⟨2023, 1, 15, 10, 30, 0, 500000000, UTC⟩ = "2023-01-15T10:30:00Z" ∧
    "2023-01-15T10:30:00Z" ≠ "2023-01-15T10:30:00.5Z" ∧
    timeFromString "2023-01-15T9:30:00Z" = .ok ⟨2023, 1, 15, 9, 30, 0, 0, UTC⟩ ∧
    timeToString ⟨2023, 1, 15, 9, 30, 0, 0, UTC⟩ = "2023-01-15T09:30:00Z" ∧
    "2023-01-15T09:30:00Z" ≠ "2023-01-15T9:30:00Z" := by
  decide

/-- The range checks `parseIsoTime` has passed when it succeeds. -/
theorem parseIsoTime_range (v : List Char) (t : Time) (h : parseIsoTime v = some t) :
    1 ≤ t.month ∧ t.month ≤ 12 ∧ 1 ≤ t.day ∧ t.day ≤ daysIn t.month t.year ∧
      t.hour < 24 ∧ t.minute < 60 ∧ t.second < 60 ∧ t.loc = UTC := by
  unfold parseIsoTime at h
  split at h
  · exact absurd h (by simp)
  split at h
  · exact absurd h (by simp)
  split at h
  · exact absurd h (by simp)
  rename_i hmonth
  split at h
  · exact absurd h (by simp)
  split at h
  · exact absurd h (by simp)
  split at h
  · exact absurd h (by simp)
  rename_i hhour
  split at h
  · exact absurd h (by simp)
  split at h
  · exact absurd h (by simp)
  rename_i hminute
  split at h
  · exact absurd h (by simp)
  split at h
  · exact absurd h (by simp)
  rename_i hsecond
  split at h
  · exact absurd h (by simp)
  split at h
  · exact absurd h (by simp)
  split at h
  · exact absurd h (by simp)
  rename_i hday
  simp only [Option.some.injEq] at h
  subst h
  simp only
  refine ⟨by omega, by omega, by omega, by omega, by omega, by omega, by omega, trivial⟩

/-- The value of at most nine digits, scaled to nine, is below 10^9. -/
theorem digitsValue_lt (ds : List Char) (hd : ∀ c ∈ ds, isDigit c = true) :
    digitsValue ds < 10 ^ ds.length := by
  induction ds using List.reverseRecOn with
  | nil => simp [digitsValue]
  | append_singleton ds c ih =>
    have h1 := ih (fun x hx => hd x (List.mem_append_left _ hx))
    have h2 := digitVal_lt c (hd c (by simp))
    rw [digitsValue_append_singleton, List.length_append, List.length_singleton, pow_succ]
    omega

theorem parseFraction_lt (v : List Char) : (parseFraction v).1 < 10 ^ 9 := by
  match v with
  | [] => simp [parseFraction]
  | [p] => simp [parseFraction]
  | p :: d :: rest =>
    simp only [parseFraction]
    split_ifs with hc
    · simp only
      have hlen : (((d :: rest).takeWhile isDigit).take 9).length ≤ 9 := by
        rw [List.length_take]; omega
      have hd : ∀ c ∈ ((d :: rest).takeWhile isDigit).take 9, isDigit c = true := by
        intro c hc
        exact (List.mem_takeWhile_imp (List.mem_of_mem_take hc))
      have hlt := digitsValue_lt _ hd
      calc digitsValue (((d :: rest).takeWhile isDigit).take 9) *
            10 ^ (9 - (((d :: rest).takeWhile isDigit).take 9).length)
          < 10 ^ (((d :: rest).takeWhile isDigit).take 9).length *
            10 ^ (9 - (((d :: rest).takeWhile isDigit).take 9).length) :=
            Nat.mul_lt_mul_of_pos_right hlt (by positivity)
        _ = 10 ^ 9 := by rw [← pow_add]; congr 1; omega
    · simp

/-- The value that `parseFraction` leaves as the final Z is a fractional
second, or nothing, followed by that Z. -/
theorem parseFraction_rest_eq_Z (v : List Char) (h : (parseFraction v).2 = ['Z']) :
    ∃ frac, isFractionText frac = true ∧ v = frac ++ ['Z'] := by
  match v, h with
  | [], h => simp [parseFraction] at h
  | [p], h =>
    simp only [parseFraction] at h
    exact ⟨[], rfl, by simpa using h⟩
  | p :: d :: rest, h =>
    simp only [parseFraction] at h
    split_ifs at h with hc
    · simp only at h
      simp only [Bool.and_eq_true] at hc
      refine ⟨p :: (d :: rest).takeWhile isDigit, ?_, ?_⟩
      · simp only [isFractionText, hc.1, Bool.true_and, Bool.and_eq_true, List.all_eq_true]
        refine ⟨?_, fun c hc => List.mem_takeWhile_imp hc⟩
        simp [List.takeWhile, hc.2]
      · rw [List.cons_append, ← h, List.takeWhile_append_dropWhile]
    · simp at h


theorem appendInt_two_one_digit (a : Char) (ha : isDigit a = true) :
    appendInt ((digitVal a : Nat) : Int) 2 = ['0', a] := by
  have h1 := digitVal_lt a ha
  have h0 : digitVal a / 10 = 0 := by omega
  rw [appendInt_two _ (by omega), h0, digitChar_zero, digitChar_eq a ha _ (by omega)]

/-- A value that `time.Parse` accepts under `isoTimeLayout` yields a calendar
date and time of day in UTC, and is the formatting of that time up to a
one-digit hour and a fractional second. -/
theorem parseIsoTime_sound (v : List Char) (t : Time) (h : parseIsoTime v = some t) :
    t.IsCalendarUTC ∧ IsLenientFormOf (formatIsoTime t) v := by
  obtain ⟨hmo1, hmo2, hd1, hd2, hh, hmi, hs, hloc⟩ := parseIsoTime_range v t h
  obtain ⟨year, month, day, hour, minute, second, v1, v2, v3, v4, v5, v6, v7, v8, v9, v10, v11,
    hy, hv2, hmo, hv4, hd, hv6, hh', hv8, hmi', hv10, hs', hz, ht⟩ := parseIsoTime_eq_some v t h
  obtain ⟨y1, y2, y3, y4, ev, hy1, hy2, hy3, hy4, eyear⟩ := parseLongYear_eq_some _ _ _ hy
  have ev1 := skipChar_eq_some _ _ _ hv2
  obtain ⟨m1, m2, ev2, hm1, hm2, emonth⟩ := getnum_fixed_eq_some _ _ _ hmo
  have ev3 := skipChar_eq_some _ _ _ hv4
  obtain ⟨d1, d2, ev4, hdd1, hdd2, eday⟩ := getnum_fixed_eq_some _ _ _ hd
  have ev5 := skipChar_eq_some _ _ _ hv6
  have ev7 := skipChar_eq_some _ _ _ hv8
  obtain ⟨mi1, mi2, ev8, hmi1, hmi2, eminute⟩ := getnum_fixed_eq_some _ _ _ hmi'
  have ev9 := skipChar_eq_some _ _ _ hv10
  obtain ⟨s1, s2, ev10, hs1, hs2, esecond⟩ := getnum_fixed_eq_some _ _ _ hs'
  have ez := skipChar_eq_some _ _ _ hz
  obtain ⟨frac, hfrac, ev11⟩ := parseFraction_rest_eq_Z v11 ez
  have hns := parseFraction_lt v11
  have b1 := digitVal_lt y1 hy1
  have b2 := digitVal_lt y2 hy2
  have b3 := digitVal_lt y3 hy3
  have b4 := digitVal_lt y4 hy4
  refine ⟨?_, ?_⟩
  · subst ht
    simp only at hmo1 hmo2 hd1 hd2 hh hmi hs
    exact ⟨by simp only; omega, by simp only; omega, hmo1, hmo2, hd1, hd2, hh, hmi, hs, hns, rfl⟩
  · rcases getnum_free_eq_some _ _ _ hh' with ⟨h1, h2, ev6, hh1, hh2, ehour⟩ | ⟨h1, ev6, hh1, ehour, -⟩
    · have hfmt : formatIsoTime t = [y1, y2, y3, y4, '-', m1, m2, '-', d1, d2, 'T', h1, h2, ':',
          mi1, mi2, ':', s1, s2, 'Z'] := by
        subst ht eyear emonth eday ehour eminute esecond
        simp only [formatIsoTime, appendInt_four_digits y1 y2 y3 y4 hy1 hy2 hy3 hy4,
          appendInt_two_digits m1 m2 hm1 hm2, appendInt_two_digits d1 d2 hdd1 hdd2,
          appendInt_two_digits h1 h2 hh1 hh2, appendInt_two_digits mi1 mi2 hmi1 hmi2,
          appendInt_two_digits s1 s2 hs1 hs2, List.cons_append, List.nil_append]
      rw [hfmt]
      refine ⟨[h1, h2], frac, Or.inl rfl, hfrac, ?_⟩
      subst ev ev1 ev2 ev3 ev4 ev5 ev6 ev7 ev8 ev9 ev10 ev11
      rfl
    · have hfmt : formatIsoTime t = [y1, y2, y3, y4, '-', m1, m2, '-', d1, d2, 'T', '0', h1, ':',
          mi1, mi2, ':', s1, s2, 'Z'] := by
        subst ht eyear emonth eday ehour eminute esecond
        simp only [formatIsoTime, appendInt_four_digits y1 y2 y3 y4 hy1 hy2 hy3 hy4,
          appendInt_two_digits m1 m2 hm1 hm2, appendInt_two_digits d1 d2 hdd1 hdd2,
          appendInt_two_one_digit h1 hh1, appendInt_two_digits mi1 mi2 hmi1 hmi2,
          appendInt_two_digits s1 s2 hs1 hs2, List.cons_append, List.nil_append]
      rw [hfmt]
      refine ⟨[h1], frac, Or.inr ⟨rfl, rfl⟩, hfrac, ?_⟩
      subst ev ev1 ev2 ev3 ev4 ev5 ev6 ev7 ev8 ev9 ev10 ev11
      rfl


theorem isDigit_colon : isDigit ':' = false := by decide

theorem isDigit_Z : isDigit 'Z' = false := by decide

theorem getnum_two (a b : Char) (rest : List Char) (fixed : Bool)
    (ha : isDigit a = true) (hb : isDigit b = true) :
    getnum (a :: b :: rest) fixed = some (digitVal a * 10 + digitVal b, rest) := by
  simp [getnum, ha, hb]

theorem getnum_one (a x : Char) (rest : List Char)
    (ha : isDigit a = true) (hx : isDigit x = false) :
    getnum (a :: x :: rest) false = some (digitVal a, x :: rest) := by
  simp [getnum, ha, hx]

theorem two_digits_value (n : Nat) (h : n < 100) :
    digitVal (digitChar (n / 10)) * 10 + digitVal (digitChar n) = n := by
  rw [digitVal_digitChar, digitVal_digitChar]
  omega

theorem four_digits_value (n : Nat) (h : n < 10000) :
    digitVal (digitChar (n / 1000)) * 1000 + digitVal (digitChar (n / 100)) * 100 +
      digitVal (digitChar (n / 10)) * 10 + digitVal (digitChar n) = n := by
  rw [digitVal_digitChar, digitVal_digitChar, digitVal_digitChar, digitVal_digitChar]
  omega

theorem dropWhile_isDigit_append_Z (ds : List Char) (hd : ds.all isDigit = true) :
    (ds ++ ['Z']).dropWhile isDigit = ['Z'] := by
  induction ds with
  | nil => simp [List.dropWhile, isDigit_Z]
  | cons d rest ih =>
    simp only [List.all_cons, Bool.and_eq_true] at hd
    simp only [List.cons_append, List.dropWhile, hd.1]
    exact ih hd.2

/-- After a fractional second, or nothing, `parseFraction` leaves the final
Z. -/
theorem parseFraction_fractionText (frac : List Char) (h : isFractionText frac = true) :
    (parseFraction (frac ++ ['Z'])).2 = ['Z'] := by
  match frac, h with
  | [], _ => rfl
  | [c], h => simp [isFractionText] at h
  | c :: d :: rest, h =>
    simp only [isFractionText, Bool.and_eq_true, List.all_cons] at h
    obtain ⟨⟨hc, -⟩, hd, hrest⟩ := h
    have hall : (d :: rest).all isDigit = true := by
      simp only [List.all_cons, hd, hrest, Bool.and_self]
    have hdw := dropWhile_isDigit_append_Z (d :: rest) hall
    simp only [List.cons_append] at hdw
    simp only [List.cons_append, parseFraction, hc, hd, Bool.and_self, if_true, hdw]

/-- The formatting of a calendar time, rune by rune. -/
theorem formatIsoTime_of_calendar (t : Time) (ht : t.IsCalendarUTC) :
    formatIsoTime t =
      [digitChar (t.year.toNat / 1000), digitChar (t.year.toNat / 100),
        digitChar (t.year.toNat / 10), digitChar t.year.toNat, '-',
        digitChar (t.month / 10), digitChar t.month, '-',
        digitChar (t.day / 10), digitChar t.day, 'T',
        digitChar (t.hour / 10), digitChar t.hour, ':',
        digitChar (t.minute / 10), digitChar t.minute, ':',
        digitChar (t.second / 10), digitChar t.second, 'Z'] := by
  obtain ⟨hy0, hy1, hmo0, hmo1, hd0, hd1, hh, hmi, hs, hns, hloc⟩ := ht
  have hday : t.day ≤ 31 := by
    refine le_trans hd1 ?_
    unfold daysIn
    split_ifs <;> omega
  have hyear : t.year = ((t.year.toNat : Nat) : Int) := by omega
  have e1 : appendInt t.year 4 = appendInt ((t.year.toNat : Nat) : Int) 4 := by rw [← hyear]
  simp only [formatIsoTime, e1, appendInt_four _ (show t.year.toNat < 10000 by omega),
    appendInt_two _ (show t.month < 100 by omega), appendInt_two _ (show t.day < 100 by omega),
    appendInt_two _ (show t.hour < 100 by omega), appendInt_two _ (show t.minute < 100 by omega),
    appendInt_two _ (show t.second < 100 by omega), List.cons_append, List.nil_append]

/-- The runes of a calendar time with any accepted hour text and fractional
second are accepted by `time.Parse` under `isoTimeLayout`. -/
theorem parseIsoTime_written (t : Time) (ht : t.IsCalendarUTC) (hour frac : List Char)
    (hhour : hour = [digitChar (t.hour / 10), digitChar t.hour] ∨
      (hour = [digitChar t.hour] ∧ t.hour < 10))
    (hfrac : isFractionText frac = true) :
    parseIsoTime
        ([digitChar (t.year.toNat / 1000), digitChar (t.year.toNat / 100),
          digitChar (t.year.toNat / 10), digitChar t.year.toNat, '-',
          digitChar (t.month / 10), digitChar t.month, '-',
          digitChar (t.day / 10), digitChar t.day, 'T'] ++
          (hour ++ ([':', digitChar (t.minute / 10), digitChar t.minute, ':',
            digitChar (t.second / 10), digitChar t.second] ++ (frac ++ ['Z'])))) =
      some { t with nsec := (parseFraction (frac ++ ['Z'])).1 } := by
  obtain ⟨year, month, day, hr, minute, second, nsec, loc⟩ := t
  obtain ⟨hy0, hy1, hmo0, hmo1, hd0, hd1, hh, hmi, hs, hns, hloc⟩ := ht
  simp only at hy0 hy1 hmo0 hmo1 hd0 hd1 hh hmi hs hns hloc hhour
  subst hloc
  have hyear : ((year.toNat : Nat) : Int) = year := by omega
  have hm : ¬ (month = 0 ∨ 12 < month) := by omega
  have hhr : ¬ (24 ≤ hr) := by omega
  have hminute : ¬ (60 ≤ minute) := by omega
  have hsecond : ¬ (60 ≤ second) := by omega
  have hday : ¬ (day < 1 ∨ daysIn month year < day) := by omega
  have hday31 : day ≤ 31 := by
    refine le_trans hd1 ?_
    unfold daysIn
    split_ifs <;> omega
  have hyv := four_digits_value year.toNat (by omega)
  have hmv := two_digits_value month (by omega)
  have hdv := two_digits_value day (by omega)
  have hhv := two_digits_value hr (by omega)
  have hmiv := two_digits_value minute (by omega)
  have hsv := two_digits_value second (by omega)
  have hz := parseFraction_fractionText frac hfrac
  rcases hhour with rfl | ⟨rfl, hlt⟩
  · simp only [parseIsoTime, parseLongYear, List.cons_append, List.nil_append,
      isDigit_digitChar, Bool.and_self, if_true, skipChar, Option.some_bind,
      getnum_two _ _ _ _ (isDigit_digitChar _) (isDigit_digitChar _),
      hyv, hmv, hdv, hhv, hmiv, hsv, hm, hhr, hminute, hsecond, hday, if_false, hz, hyear,
      ne_eq, not_true_eq_false]
  · have hone : digitVal (digitChar hr) = hr := by rw [digitVal_digitChar]; omega
    simp only [parseIsoTime, parseLongYear, List.cons_append, List.nil_append,
      isDigit_digitChar, Bool.and_self, if_true, skipChar, Option.some_bind,
      getnum_two _ _ _ _ (isDigit_digitChar _) (isDigit_digitChar _),
      getnum_one _ _ _ (isDigit_digitChar _) isDigit_colon, hone,
      hyv, hmv, hdv, hmiv, hsv, hm, hhr, hminute, hsecond, hday, if_false, hz, hyear,
      ne_eq, not_true_eq_false]

/-- Every lenient form of the formatting of a calendar time is accepted by
`time.Parse` under `isoTimeLayout`, and yields that time up to the
nanoseconds. -/
theorem parseIsoTime_complete (t : Time) (ht : t.IsCalendarUTC) (v : List Char)
    (hv : IsLenientFormOf (formatIsoTime t) v) :
    ∃ ns, ns < 10 ^ 9 ∧ parseIsoTime v = some { t with nsec := ns } := by
  obtain ⟨hour, frac, hhour, hfrac, hs⟩ := hv
  rw [formatIsoTime_of_calendar t ht] at hhour hs
  refine ⟨(parseFraction (frac ++ ['Z'])).1, parseFraction_lt _, ?_⟩
  have hw := parseIsoTime_written t ht hour frac ?_ hfrac
  · rw [hs]
    exact hw
  · rcases hhour with h | ⟨h, h0⟩
    · exact Or.inl h
    · refine Or.inr ⟨h, ?_⟩
      simp only [List.drop, List.take, List.cons.injEq, and_true] at h0
      have hv0 : digitVal (digitChar (t.hour / 10)) = digitVal '0' := by rw [h0]
      rw [digitVal_digitChar] at hv0
      have hz : digitVal '0' = 0 := by decide
      have hh := ht.2.2.2.2.2.2.1
      omega

/-- The formatting of a calendar time of whole seconds is accepted by
`time.Parse` under `isoTimeLayout`, and yields that time. -/
theorem parseIsoTime_formatIsoTime (t : Time) (ht : t.IsCalendarUTC) (hns : t.nsec = 0) :
    parseIsoTime (formatIsoTime t) = some t := by
  have hw := parseIsoTime_written t ht _ [] (Or.inl rfl) rfl
  rw [formatIsoTime_of_calendar t ht]
  have hz : (parseFraction ([] ++ ['Z'])).1 = 0 := rfl
  rw [hz, ← hns] at hw
  exact hw


/-- A value that `time.Parse` rejects under `isoTimeLayout` is no lenient
form of the formatting of a calendar time. -/
theorem not_lenientForm_of_parseIsoTime_eq_none (v : List Char) (h : parseIsoTime v = none)
    (t : Time) (ht : t.IsCalendarUTC) : ¬ IsLenientFormOf (formatIsoTime t) v := by
  intro hv
  obtain ⟨ns, -, hp⟩ := parseIsoTime_complete t ht v hv
  rw [h] at hp
  exact absurd hp (by simp)

/-- C12, amended: `timeFromString("2023-01-15T10:30:00Z")` succeeds with
2023-01-15 10:30:00 UTC, which `timeToString` writes as the same string, and
`timeFromString(timeToString(t))` is `t` for every calendar time `t` of whole
seconds in UTC. Every string `s` that `timeFromString` accepts yields a
calendar time `t` in UTC of which `s` is the pattern string
`timeToString(t)`, where the hour may lack its leading zero and a fractional
second may stand before the Z; with neither (a string of the pattern's 20
characters) `timeToString(timeFromString(s))` is `s`. Every such form of a
calendar time is accepted, and every other string is rejected with a parse
error. -/
theorem timestamp_codec_up_to_lenient_forms :
    timeFromString "2023-01-15T10:30:00Z" = .ok ⟨2023, 1, 15, 10, 30, 0, 0, UTC⟩ ∧
    timeToString ⟨2023, 1, 15, 10, 30, 0, 0, UTC⟩ = "2023-01-15T10:30:00Z" ∧
    (∀ t : Time, t.IsCalendarUTC → t.nsec = 0 → timeFromString (timeToString t) = .ok t) ∧
    (∀ (s : String) (t : Time), timeFromString s = .ok t →
      t.IsCalendarUTC ∧ IsLenientFormOf (timeToString t).data s.data ∧
        (s.length = 20 → timeToString t = s)) ∧
    (∀ (t : Time) (s : String), t.IsCalendarUTC →
      IsLenientFormOf (timeToString t).data s.data →
      ∃ ns, ns < 10 ^ 9 ∧ timeFromString s = .ok { t with nsec := ns }) ∧
    (∀ s : String,
      (∀ t : Time, t.IsCalendarUTC → ¬ IsLenientFormOf (timeToString t).data s.data) →
      timeFromString s = .error (.timeParse isoTimeLayout s)) := by
  have hsound : ∀ (s : String) (t : Time), timeFromString s = .ok t →
      t.IsCalendarUTC ∧ IsLenientFormOf (timeToString t).data s.data := by
    intro s t h
    unfold timeFromString at h
    split at h
    · rename_i t1 hp
      simp only [Except.ok.injEq] at h
      subst h
      exact parseIsoTime_sound s.data t1 hp
    · exact absurd h (by simp)
  refine ⟨by decide, by decide, ?_, ?_, ?_, ?_⟩
  · intro t ht hns
    have hp := parseIsoTime_formatIsoTime t ht hns
    simp only [timeFromString, timeToString, hp]
  · intro s t h
    exact ⟨(hsound s t h).1, (hsound s t h).2, timeToString_timeFromString s t h⟩
  · intro t s ht hv
    obtain ⟨ns, hns, hp⟩ := parseIsoTime_complete t ht s.data hv
    exact ⟨ns, hns, by simp only [timeFromString, hp]⟩
  · intro s hno
    cases hres : timeFromString s with
    | ok t => exact absurd (hsound s t hres).2 (hno t (hsound s t hres).1)
    | error e =>
      unfold timeFromString at hres
      split at hres
      · exact absurd hres (by simp)
      · exact hres.symm

/-- C12, amended, at concrete inputs: the time 1999-12-31 23:59:59 UTC is
read back from its string; "2023-01-15T9:30:00.5Z" yields a calendar time
and is a lenient form of the pattern string of that time; "2023-02-30T10:30:00Z" (no such
day), "2023-13-45T99:99:99Z" (no such month or hour), "2023-01-15 10:30:00Z"
(a space for the T) and the empty string are rejected. -/
theorem timestamp_codec_up_to_lenient_forms_witness :
    timeFromString (timeToString ⟨1999, 12, 31, 23, 59, 59, 0, UTC⟩) =
      .ok ⟨1999, 12, 31, 23, 59, 59, 0, UTC⟩ ∧
    (Time.IsCalendarUTC ⟨2023, 1, 15, 9, 30, 0, 500000000, UTC⟩ ∧
      IsLenientFormOf (timeToString ⟨2023, 1, 15, 9, 30, 0, 500000000, UTC⟩).data
        "2023-01-15T9:30:00.5Z".data ∧
      ("2023-01-15T9:30:00.5Z".length = 20 →
        timeToString ⟨2023, 1, 15, 9, 30, 0, 500000000, UTC⟩ = "2023-01-15T9:30:00.5Z")) ∧
    timeFromString "2023-02-30T10:30:00Z" =
      .error (.timeParse isoTimeLayout "2023-02-30T10:30:00Z") ∧
    timeFromString "2023-13-45T99:99:99Z" =
      .error (.timeParse isoTimeLayout "2023-13-45T99:99:99Z") ∧
    timeFromString "2023-01-15 10:30:00Z" =
      .error (.timeParse isoTimeLayout "2023-01-15 10:30:00Z") ∧
    timeFromString "" = .error (.timeParse isoTimeLayout "") :=
  ⟨timestamp_codec_up_to_lenient_forms.2.2.1 ⟨1999, 12, 31, 23, 59, 59, 0, UTC⟩ (by decide) rfl,
    timestamp_codec_up_to_lenient_forms.2.2.2.1 "2023-01-15T9:30:00.5Z"
      ⟨2023, 1, 15, 9, 30, 0, 500000000, UTC⟩ (by decide),
    timestamp_codec_up_to_lenient_forms.2.2.2.2.2 "2023-02-30T10:30:00Z"
      (not_lenientForm_of_parseIsoTime_eq_none _ (by decide)),
    timestamp_codec_up_to_lenient_forms.2.2.2.2.2 "2023-13-45T99:99:99Z"
      (not_lenientForm_of_parseIsoTime_eq_none _ (by decide)),
    timestamp_codec_up_to_lenient_forms.2.2.2.2.2 "2023-01-15 10:30:00Z"
      (not_lenientForm_of_parseIsoTime_eq_none _ (by decide)),
    timestamp_codec_up_to_lenient_forms.2.2.2.2.2 ""
      (not_lenientForm_of_parseIsoTime_eq_none _ (by decide))⟩

/-! ## Theorems: the flat object of an escalation policy with a rule -/

/-- An array of strings is unchanged by the hop through `interface{}`. -/
theorem viaInterfaceList_strings (fmtFloat : JNumber → JNumber) (xs : List String) :
    viaInterfaceList fmtFloat (xs.map JSON.string) = xs.map JSON.string := by
  induction xs with
  | nil => rfl
  | cons x rest ih => simp only [List.map_cons, viaInterfaceList, viaInterface, ih]

/-- What `json.Marshal` writes for a `[]string` is unchanged by the hop
through `interface{}`. -/
theorem viaInterface_stringSliceJSON (fmtFloat : JNumber → JNumber)
    (ids : Option (List String)) :
    viaInterface fmtFloat (stringSliceJSON ids) = stringSliceJSON ids := by
  cases ids with
  | none => simp only [stringSliceJSON, viaInterface]
  | some xs => simp only [stringSliceJSON, viaInterface, viaInterfaceList_strings]

/-- The float64 text of strconv is exact on the integers up to 2^53 in
absolute value. -/
theorem float64Text_exact_on_small_ints : ExactOnSmallInts float64Text := by
  intro n hn
  have h21 : n.natAbs < 10 ^ 21 := lt_of_le_of_lt hn (by norm_num)
  simp only [float64Text, if_pos h21]
  rcases Nat.lt_or_ge n.natAbs (2 ^ 53) with h | h
  · simp only [float64DecimalText, if_pos h]
    split_ifs with hneg
    · congr 1; omega
    · congr 1; omega
  · have he : n.natAbs = 2 ^ 53 := le_antisymm hn h
    have hv : float64DecimalText (2 ^ 53) = 2 ^ 53 := by decide
    rw [he, hv]
    split_ifs with hneg
    · congr 1; omega
    · congr 1; omega

/-- C13 fails on the code: the rule `Wait` with the duration 9007199254740993
(2^53 + 1 nanoseconds) encodes by itself as `{"duration": 9007199254740993}`,
but the object that `EscalationPolicy.MarshalJSON` writes for a policy with
that rule has `"duration": 9007199254740992`, since the number passed through
a float64 when the rule's encoding was read into the map; `UnmarshalJSON` of
that object yields a policy with another duration and no error. For the
duration 9223372036854775807 the object has `"duration": 9223372036854776000`,
which `UnmarshalJSON` rejects as out of the range of `time.Duration`. -/
theorem marshal_changes_large_duration :
    EscalationPolicyRule.members (.Wait 9007199254740993) =
      [("duration", .number (.int 9007199254740993))] ∧
    EscalationPolicy.MarshalJSON float64Text
        (some { ID := "", EscalationChainID := "F5JU6KJET33FE", Position := 0,
                Rule := some (.Wait 9007199254740993) }) =
      .object [("duration", .number (.int 9007199254740992)),
        ("escalation_chain_id", .string "F5JU6KJET33FE"),
        ("position", .number (.int 0)),
        ("type", .string "wait")] ∧
    JNumber.int 9007199254740992 ≠ JNumber.int 9007199254740993 ∧
    EscalationPolicy.UnmarshalJSON { ID := "", EscalationChainID := "", Position := 0, Rule := none }
        (EscalationPolicy.MarshalJSON float64Text
          (some { ID := "", EscalationChainID := "F5JU6KJET33FE", Position := 0,
                  Rule := some (.Wait 9007199254740993) })) =
      ({ ID := "", EscalationChainID := "F5JU6KJET33FE", Position := 0,
         Rule := some (.Wait 9007199254740992) }, none) ∧
    EscalationPolicyRule.members (.Wait 9223372036854775807) =
      [("duration", .number (.int 9223372036854775807))] ∧
    EscalationPolicy.MarshalJSON float64Text
        (some { ID := "", EscalationChainID := "F5JU6KJET33FE", Position := 0,
                Rule := some (.Wait 9223372036854775807) }) =
      .object [("duration", .number (.int 9223372036854776000)),
        ("escalation_chain_id", .string "F5JU6KJET33FE"),
        ("position", .number (.int 0)),
        ("type", .string "wait")] ∧
    EscalationPolicy.UnmarshalJSON { ID := "", EscalationChainID := "", Position := 0, Rule := none }
        (EscalationPolicy.MarshalJSON float64Text
          (some { ID := "", EscalationChainID := "F5JU6KJET33FE", Position := 0,
                  Rule := some (.Wait 9223372036854775807) })) =
      ({ ID := "", EscalationChainID := "F5JU6KJET33FE", Position := 0, Rule := none },
        some (.unmarshalType "number 9223372036854776000" "time.Duration")) := by
  refine ⟨rfl, rfl, by decide, ?_, rfl, rfl, ?_⟩
  · decide
  · decide

/-- What `EscalationPolicy.MarshalJSON` writes for a policy with a rule, for
every text `fmtFloat` of the float64 a number passes through: a flat object
whose keys are those of the rule's own encoding and `type`, `id`,
`escalation_chain_id`, `position`. Every member of the rule's own encoding is
a member of the object with its value as encoding/json writes it back from the
map, which is the value itself unless it is a number, and also then when
`fmtFloat` is exact up to 2^53 and the number is at most 2^53 in absolute
value. `type` is the string of the rule's type, `escalation_chain_id` and
`position` are the policy's, and `id` is the policy's ID, present exactly when
the ID is not empty. -/
theorem marshal_with_rule (fmtFloat : JNumber → JNumber) (e : EscalationPolicy)
    (rule : EscalationPolicyRule) (hrule : e.Rule = some rule) :
    ∃ kvs, EscalationPolicy.MarshalJSON fmtFloat (some e) = .object kvs ∧
      (∀ kv ∈ kvs, kv.1 ∈ rule.members.map Prod.fst ∨
        kv.1 ∈ ["type", "id", "escalation_chain_id", "position"]) ∧
      (∀ kv ∈ rule.members, lookupKey kv.1 kvs = some (viaInterface fmtFloat kv.2)) ∧
      (∀ kv ∈ rule.members, (∀ n, kv.2 ≠ .number n) → viaInterface fmtFloat kv.2 = kv.2) ∧
      (ExactOnSmallInts fmtFloat → ∀ kv ∈ rule.members, ∀ n : Int,
        kv.2 = .number (.int n) → n.natAbs ≤ 2 ^ 53 → viaInterface fmtFloat kv.2 = kv.2) ∧
      lookupKey "type" kvs =
        some (.string (EscalationPolicyType.String rule.EscalationPolicyType)) ∧
      lookupKey "escalation_chain_id" kvs = some (.string e.EscalationChainID) ∧
      lookupKey "position" kvs = some (.number (.int e.Position)) ∧
      lookupKey "id" kvs = (if e.ID = "" then none else some (.string e.ID)) := by
  obtain ⟨ID, chain, pos, r⟩ := e
  simp only at hrule
  subst hrule
  refine ⟨_, rfl, ?_, ?_, ?_, ?_, ?_, ?_, ?_, ?_⟩
  all_goals
    by_cases hid : ID = "" <;> cases rule <;>
      simp +decide only [hid, mapSet, viaInterfaceMembers, viaInterface,
        viaInterface_stringSliceJSON,
        EscalationPolicyRule.members, EscalationPolicyRuleNotifyIfTimeFromTo.MarshalJSON,
        escalationPolicyRuleNotifyIfTimeFromToRaw.members, ne_eq, not_false_eq_true,
        not_true_eq_false, if_true, if_false, List.forall_mem_cons, List.not_mem_nil,
        false_implies, implies_true, and_true, true_and, List.map_cons, List.map_nil] <;>
      first
        | rfl
        | exact ⟨rfl, rfl⟩
        | (intro h; exact absurd rfl (h _))
        | (intro hex n hn hle
           simp only [JSON.number.injEq, JNumber.int.injEq] at hn
           subst hn
           rw [hex _ hle])

/-- The lemma `marshal_with_rule` at the policy with the rule
`NotifyPersons`, the ID `"E3GA6SJETWWJS"` and two users, for the float64 text
of strconv. -/
theorem marshal_with_rule_witness :
    ∃ kvs, EscalationPolicy.MarshalJSON float64Text
        (some { ID := "E3GA6SJETWWJS", EscalationChainID := "F5JU6KJET33FE", Position := 2,
                Rule := some (.NotifyPersons true (some ["U4DNY931HHJS5", "U6RV9WPSL6DFW"])) }) =
          .object kvs ∧
      (∀ kv ∈ kvs,
        kv.1 ∈ (EscalationPolicyRule.members
            (.NotifyPersons true (some ["U4DNY931HHJS5", "U6RV9WPSL6DFW"]))).map Prod.fst ∨
        kv.1 ∈ ["type", "id", "escalation_chain_id", "position"]) ∧
      (∀ kv ∈ EscalationPolicyRule.members
          (.NotifyPersons true (some ["U4DNY931HHJS5", "U6RV9WPSL6DFW"])),
        lookupKey kv.1 kvs = some (viaInterface float64Text kv.2)) ∧
      (∀ kv ∈ EscalationPolicyRule.members
          (.NotifyPersons true (some ["U4DNY931HHJS5", "U6RV9WPSL6DFW"])),
        (∀ n, kv.2 ≠ .number n) → viaInterface float64Text kv.2 = kv.2) ∧
      (ExactOnSmallInts float64Text → ∀ kv ∈ EscalationPolicyRule.members
          (.NotifyPersons true (some ["U4DNY931HHJS5", "U6RV9WPSL6DFW"])), ∀ n : Int,
        kv.2 = .number (.int n) → n.natAbs ≤ 2 ^ 53 → viaInterface float64Text kv.2 = kv.2) ∧
      lookupKey "type" kvs = some (.string "notify_persons") ∧
      lookupKey "escalation_chain_id" kvs = some (.string "F5JU6KJET33FE") ∧
      lookupKey "position" kvs = some (.number (.int 2)) ∧
      lookupKey "id" kvs = some (.string "E3GA6SJETWWJS") :=
  marshal_with_rule float64Text
    { ID := "E3GA6SJETWWJS", EscalationChainID := "F5JU6KJET33FE", Position := 2,
      Rule := some (.NotifyPersons true (some ["U4DNY931HHJS5", "U6RV9WPSL6DFW"])) }
    (.NotifyPersons true (some ["U4DNY931HHJS5", "U6RV9WPSL6DFW"])) rfl

end Oncall
